import Mathlib

/-!
Verification development for the Context Rule Store of the
MCP-Context-Provider server (`context_provider_server.py`).

The Python module is shallowly embedded as executable Lean definitions:

* JSON-like values become the inductive `JVal`; Python dictionaries become
  insertion-ordered association lists (`aset` keeps a key at its original
  position and appends new keys at the end, exactly like a Python dict).
* The provider's state (`self.contexts`, the configuration directory and its
  `backups/` subdirectory) becomes the `Store` structure.  File contents are
  stored as parsed documents: `json.dump` is deterministic on a fixed
  document, so two files are byte-identical iff the stored documents are
  equal.
* Python's object aliasing matters for `update_context_rules`:
  `self.contexts[name].copy()` is a *shallow* copy, so nested `metadata`
  dictionaries are shared between the copy and the stored document and
  in-place mutation of the copy's metadata is visible in the store.  This is
  modelled by keeping dict-valued `metadata` sections in an explicit heap
  (`Store.heap`) addressed by `Doc.meta`; `.copy()` copies the record but
  shares the heap reference.  Non-dict `metadata` values (possible in
  documents loaded from disk) stay inline in `Doc.fields`.
* Exceptions become `Except`/explicit error branches; the messages of
  `except Exception` handlers that interpolate the exception text are
  modelled as fixed strings (no theorem inspects them).
* Wall-clock timestamps (`datetime.now().isoformat()`,
  `strftime('%Y%m%d_%H%M%S')`, `time.time()`) are passed in as parameters.
* `re.sub(pattern, replacement, text, flags=re.MULTILINE)` is modelled by
  `reSub`, a leftmost, non-overlapping, global literal substitution.  This
  is exactly Python's behaviour for patterns containing no regex
  metacharacters (the `MULTILINE` flag only changes `^`/`$`, which literal
  patterns do not contain, and literal patterns always compile, so the
  `re.error` skip branch is unreachable).  All theorems instantiate
  patterns only with metacharacter-free strings.
-/

/-- JSON-like values: the dynamic data manipulated by the provider.
Python dicts are insertion-ordered association lists. -/
inductive JVal : Type where
  | null : JVal
  | bool : Bool → JVal
  | num : Int → JVal
  | str : String → JVal
  | list : List JVal → JVal
  | dict : List (String × JVal) → JVal

/-- Lookup in an association list (Python `d[k]` / `k in d`). -/
def alookup {κ : Type} [DecidableEq κ] {α : Type} : List (κ × α) → κ → Option α
  | [], _ => none
  | (k1, v) :: rest, k => if k1 = k then some v else alookup rest k

/-- Assignment `d[k] = v` on a Python dict: an existing key keeps its
position, a new key is appended at the end. -/
def aset {κ : Type} [DecidableEq κ] {α : Type} : List (κ × α) → κ → α → List (κ × α)
  | [], k, v => [(k, v)]
  | (k1, v1) :: rest, k, v => if k1 = k then (k, v) :: rest else (k1, v1) :: aset rest k v

/-- Membership `k in d` for a Python dict. -/
def hasKey {κ : Type} [DecidableEq κ] {α : Type} (l : List (κ × α)) (k : κ) : Bool :=
  (alookup l k).isSome

/-- Remove every binding of a key (used when splitting `metadata` off into
the heap). -/
def aremove {κ : Type} [DecidableEq κ] {α : Type} (l : List (κ × α)) (k : κ) : List (κ × α) :=
  l.filter (fun p => p.1 ≠ k)

/-- Python `dict.update(other)`: fold assignments of `other` over the dict. -/
def dictMerge {κ : Type} [DecidableEq κ] {α : Type}
    (base other : List (κ × α)) : List (κ × α) :=
  other.foldl (fun acc p => aset acc p.1 p.2) base

theorem alookup_aset_self {κ : Type} [DecidableEq κ] {α : Type}
    (l : List (κ × α)) (k : κ) (v : α) : alookup (aset l k v) k = some v := by
  induction l with
  | nil => simp [aset, alookup]
  | cons h t ih =>
      by_cases hk : h.1 = k
      · simp [aset, hk, alookup]
      · simp [aset, hk, alookup, ih]

theorem alookup_aset_ne {κ : Type} [DecidableEq κ] {α : Type}
    (l : List (κ × α)) (k k2 : κ) (v : α) (h : k ≠ k2) :
    alookup (aset l k v) k2 = alookup l k2 := by
  induction l with
  | nil => simp [aset, alookup, h]
  | cons hd t ih =>
      by_cases hk : hd.1 = k
      · simp [aset, hk, alookup, h]
      · by_cases hk2 : hd.1 = k2
        · simp [aset, hk, alookup, hk2, Ne.symm h]
        · simp [aset, hk, alookup, hk2, ih]

theorem dictMerge_lookup_notin {κ : Type} [DecidableEq κ] {α : Type}
    (base other : List (κ × α)) (k : κ) (h : hasKey other k = false) :
    alookup (dictMerge base other) k = alookup base k := by
  induction other generalizing base with
  | nil => simp [dictMerge]
  | cons hd t ih =>
      simp only [dictMerge, List.foldl_cons]
      have hhd : hd.1 ≠ k := by
        intro he
        simp [hasKey, alookup, he] at h
      have ht : hasKey t k = false := by
        simp only [hasKey, alookup, if_neg hhd] at h
        simpa [hasKey] using h
      rw [show List.foldl (fun acc p => aset acc p.1 p.2) (aset base hd.1 hd.2) t =
            dictMerge (aset base hd.1 hd.2) t from rfl]
      rw [ih (aset base hd.1 hd.2) ht, alookup_aset_ne _ _ _ _ hhd]

/-- Characters admitted by the name regex class `[a-zA-Z0-9_-]`
(`Char.isAlphanum` is exactly ASCII letters and digits). -/
def nameClassChar (c : Char) : Bool :=
  c.isAlphanum || c = '_' || c = '-'

/-- Matcher for the Python name regex (one or more class characters); the
`$` anchor also matches just before one trailing newline. -/
def nameMatchList : List Char → Bool
  | [] => false
  | l =>
      (l.all nameClassChar) ||
      (match l.getLast? with
       | some c =>
           decide (c = '\n') && decide (l.dropLast ≠ []) && l.dropLast.all nameClassChar
       | none => false)

/-- Digits of `\d` (modelled as ASCII digits; the documents under test only
use ASCII). -/
def versionCore (l : List Char) : Bool :=
  match splitDots l with
  | [a, b, c] => decide (a ≠ []) && a.all Char.isDigit &&
                 decide (b ≠ []) && b.all Char.isDigit &&
                 decide (c ≠ []) && c.all Char.isDigit
  | _ => false
where
  splitDots : List Char → List (List Char)
    | [] => [[]]
    | c :: rest =>
        if c = '.' then [] :: splitDots rest
        else match splitDots rest with
          | [] => [[c]]
          | g :: gs => (c :: g) :: gs

/-- Matcher for the version regex (digits dot digits dot digits), with the
trailing-newline quirk of
`$`. -/
def versionMatch (s : String) : Bool :=
  versionCore s.data ||
  (match s.data.getLast? with
   | some c => decide (c = '\n') && versionCore s.data.dropLast
   | none => false)

/-- Python `str.lower()` (per-character, which is exact on ASCII input). -/
def strLower (s : String) : String :=
  ⟨s.data.map Char.toLower⟩

/-- Embedding of `ContextProvider._validate_context_name`. -/
def validate_context_name (name : String) : Bool :=
  nameMatchList name.data &&
  decide (1 ≤ name.length) && decide (name.length ≤ 50) &&
  decide (strLower name ∉ ["system", "admin", "config", "server"])

/-- Python `str(v)` for the values that can sit under `metadata.version`.
Containers get a placeholder: their Python repr never matches the version
regex either, so `versionMatch` is unaffected. -/
def pyStr : JVal → String
  | .null => "None"
  | .bool b => if b then "True" else "False"
  | .num n => toString n
  | .str s => s
  | .list _ => "[...]"
  | .dict _ => "{...}"

/-- A context document as a JSON object (association list). -/
abbrev DocV := List (String × JVal)

/-- One optional-section type check of `_validate_context_data`
(the loop body over the schema's optional sections). -/
def secCheck (d : DocV) (sec : String) : List String :=
  match alookup d sec with
  | some (.dict _) => []
  | some _ => [sec ++ " must be a dictionary"]
  | none => []

/-- Embedding of `ContextProvider._validate_context_data`: errors and warnings, appended
in the source's order. -/
def validate_context_data (d : DocV) : List String × List String :=
  let e1 := if hasKey d "tool_category" then [] else ["Missing required field: tool_category"]
  let e2 := if hasKey d "description" then [] else ["Missing required field: description"]
  let e3 := match alookup d "tool_category" with
    | some (.str s) =>
        if validate_context_name s then [] else ["tool_category contains invalid characters"]
    | some _ => ["tool_category must be a string"]
    | none => []
  let e4 := match alookup d "description" with
    | some (.str _) => []
    | some _ => ["description must be a string"]
    | none => []
  let w1 := match alookup d "description" with
    | some (.str s) => if s.length > 500 then ["description is very long (>500 characters)"] else []
    | _ => []
  let e5 := (["syntax_rules", "preferences", "auto_corrections",
              "session_initialization"].map (secCheck d)).flatten
  let e6 := match alookup d "metadata" with
    | some (.dict _) => []
    | some _ => ["metadata must be a dictionary"]
    | none => []
  let w2 := match alookup d "metadata" with
    | some (.dict m) =>
        match alookup m "version" with
        | some v =>
            if versionMatch (pyStr v) then []
            else ["version should follow semantic versioning (x.y.z)"]
        | none => []
    | _ => []
  (e1 ++ e2 ++ e3 ++ e4 ++ e5 ++ e6, w1 ++ w2)

/-- One scanning pass of `re.sub` for a literal, non-empty pattern:
leftmost, non-overlapping, global replacement.  `fuel` only bounds the
recursion; any `fuel ≥ t.length` computes the substitution. -/
def reSubFuel (p r : List Char) : Nat → List Char → List Char
  | _, [] => []
  | 0, t => t
  | Nat.succ n, c :: cs =>
      if p ≠ [] ∧ p.isPrefixOf (c :: cs) then
        r ++ reSubFuel p r n (List.drop (p.length - 1) cs)
      else c :: reSubFuel p r n cs

/-- Model of `re.sub(p, r, t)` for a literal pattern `p`.  An empty pattern matches
at every position (Python inserts `r` before every character and at the
end). -/
def reSubList (p r t : List Char) : List Char :=
  if p = [] then r ++ t.foldr (fun c acc => c :: (r ++ acc)) []
  else reSubFuel p r t.length t

/-- String wrapper of `reSubList`. -/
def reSub (p r t : String) : String :=
  ⟨reSubList p.data r.data t.data⟩

theorem reSubFuel_fuel_irrel (p r : List Char) :
    ∀ n m t, t.length ≤ n → t.length ≤ m →
      reSubFuel p r n t = reSubFuel p r m t := by
  intro n
  induction n with
  | zero =>
      intro m t hn _
      cases t with
      | nil => cases m <;> simp [reSubFuel]
      | cons c cs => simp at hn
  | succ k ih =>
      intro m t hn hm
      cases t with
      | nil => cases m <;> simp [reSubFuel]
      | cons c cs =>
          cases m with
          | zero => simp at hm
          | succ m1 =>
              have hn1 : cs.length ≤ k := by simpa using hn
              have hm1 : cs.length ≤ m1 := by simpa using hm
              simp only [reSubFuel]
              by_cases hp : p ≠ [] ∧ p.isPrefixOf (c :: cs)
              · simp only [if_pos hp]
                have h1 : (List.drop (p.length - 1) cs).length ≤ k := by
                  rw [List.length_drop]; omega
                have h2 : (List.drop (p.length - 1) cs).length ≤ m1 := by
                  rw [List.length_drop]; omega
                rw [ih _ _ h1 h2]
              · simp only [if_neg hp]
                rw [ih _ _ hn1 hm1]

theorem reSubList_nil (p r : List Char) (hp : p ≠ []) : reSubList p r [] = [] := by
  simp [reSubList, hp, reSubFuel]

/-- A match at the very front is replaced and scanning continues after it. -/
theorem reSubList_match (p r b : List Char) (hp : p ≠ []) :
    reSubList p r (p ++ b) = r ++ reSubList p r b := by
  cases p with
  | nil => exact absurd rfl hp
  | cons c0 p1 =>
      have hne : (c0 :: p1 : List Char) ≠ [] := by simp
      have hl : (c0 :: p1) ++ b = c0 :: (p1 ++ b) := by simp
      unfold reSubList
      rw [if_neg hne, if_neg hne, hl, List.length_cons]
      simp only [reSubFuel]
      have hpre : (c0 :: p1).isPrefixOf (c0 :: (p1 ++ b)) = true := by
        simp [List.isPrefixOf_iff_prefix]
      rw [if_pos ⟨hne, hpre⟩]
      have hdrop : List.drop ((c0 :: p1).length - 1) (p1 ++ b) = b := by
        simp [List.drop_left]
      rw [hdrop]
      congr 1
      exact reSubFuel_fuel_irrel _ _ _ _ _
        (by simp [List.length_append]) (le_refl _)

/-- No match at the front: the head character is kept, scanning continues. -/
theorem reSubList_nomatch (p r : List Char) (c : Char) (cs : List Char)
    (h : p.isPrefixOf (c :: cs) = false) :
    reSubList p r (c :: cs) = c :: reSubList p r cs := by
  have hp : p ≠ [] := by
    intro he; subst he; simp [List.isPrefixOf] at h
  unfold reSubList
  rw [if_neg hp, if_neg hp, List.length_cons]
  simp only [reSubFuel]
  rw [if_neg (fun hc => by simp [h] at hc)]

/-- Global substitution: if no match starts strictly inside `a`, then the
occurrence of `p` after `a` is replaced and substitution recursively
continues on the rest of the text. -/
theorem reSubList_global (p r : List Char) (hp : p ≠ []) :
    ∀ a b : List Char,
      (∀ i, i < a.length → p.isPrefixOf (List.drop i (a ++ p ++ b)) = false) →
      reSubList p r (a ++ p ++ b) = a ++ r ++ reSubList p r b := by
  intro a
  induction a with
  | nil =>
      intro b _
      simpa using reSubList_match p r b hp
  | cons c a1 ih =>
      intro b hocc
      have h0 : p.isPrefixOf (c :: (a1 ++ p ++ b)) = false := by
        have := hocc 0 (by simp)
        simpa using this
      have hstep := reSubList_nomatch p r c (a1 ++ p ++ b) (by simpa using h0)
      calc reSubList p r (c :: a1 ++ p ++ b)
          = c :: reSubList p r (a1 ++ p ++ b) := by simpa using hstep
        _ = c :: (a1 ++ r ++ reSubList p r b) := by
              rw [ih b (fun i hi => by
                have := hocc (i + 1) (by simp; omega)
                simpa using this)]
        _ = (c :: a1) ++ r ++ reSubList p r b := by simp

/-- An in-memory context document.  A dict-valued `metadata` section lives
in the heap behind the reference `meta` (shared by Python's shallow
`dict.copy()`); every other field — including a non-dict `metadata` value —
is in `fields`. -/
structure Doc : Type where
  fields : DocV
  meta : Option Nat

/-- The provider state: the in-memory context map, the metadata heap, and
the configuration directory (paths relative to `config_dir`; file contents
are stored as parsed documents, see the header comment). -/
structure Store : Type where
  contexts : List (String × Doc)
  heap : List (Nat × DocV)
  nextRef : Nat
  disk : List (String × DocV)

/-- Dereference a metadata heap cell. -/
def heapGet (heap : List (Nat × DocV)) (r : Nat) : DocV :=
  (alookup heap r).getD []

/-- Allocate a fresh metadata dict on the heap. -/
def allocMeta (st : Store) (m : DocV) : Nat × Store :=
  (st.nextRef,
   { st with heap := aset st.heap st.nextRef m, nextRef := st.nextRef + 1 })

/-- The document as the single Python dict it is: inline fields plus the
heap-resident `metadata` section (canonically placed last; no modelled
operation depends on the position of the `metadata` key). -/
def derefDoc (heap : List (Nat × DocV)) (d : Doc) : DocV :=
  match d.meta with
  | some r => d.fields ++ [("metadata", JVal.dict (heapGet heap r))]
  | none => d.fields

/-- Intern a parsed document: a dict-valued `metadata` is moved to the
heap, everything else stays inline. -/
def docOfValue (st : Store) (v : DocV) : Doc × Store :=
  match alookup v "metadata" with
  | some (.dict m) =>
      let rs := allocMeta st m
      (⟨aremove v "metadata", some rs.1⟩, rs.2)
  | _ => (⟨v, none⟩, st)

/-- Membership `k in current_data` where `current_data` is the shallow copy of a
stored document. -/
def docHasKey (d : Doc) (k : String) : Bool :=
  hasKey d.fields k || (decide (k = "metadata") && d.meta.isSome)

/-- The on-disk path of a context file. -/
def ctxPath (name : String) : String :=
  name ++ "_context.json"

/-- The path of a timestamped backup (`ts` stands for
`datetime.now().strftime('%Y%m%d_%H%M%S')`). -/
def backupPath (name ts : String) : String :=
  "backups/" ++ name ++ "_context_" ++ ts ++ ".json"

/-- Embedding of `ContextProvider._backup_context_file`.  Returns the backup path (or
`none` when there is nothing to back up or the copy failed — `backupOk`
stands for the success of `shutil.copy2`, whose exceptions are caught and
only logged). -/
def backup_context_file (st : Store) (name ts : String) (backupOk : Bool) :
    Option String × Store :=
  match alookup st.disk (ctxPath name) with
  | none => (none, st)
  | some content =>
      if backupOk then
        (some (backupPath name ts),
         { st with disk := aset st.disk (backupPath name ts) content })
      else (none, st)

/-- Result dictionary of a mutating operation (only the keys some branch of
the source actually sets; absent keys are `none`/`[]`). -/
structure OpResult : Type where
  success : Bool
  error : Option String
  message : Option String
  validation_errors : List String
  warnings : List String
  context_name : Option String
  backup_file : Option String
  available_contexts : List String
  existing_file : Option String
  context_file : Option String
  updated_fields : List String
  optimizations_applied : List String

/-- All-empty result, updated per branch. -/
def OpResult.base : OpResult :=
  ⟨false, none, none, [], [], none, none, [], none, none, [], []⟩

/-- The document assembled by `create_context_file` (python inserts the
keys in the order tool_category, auto_convert, metadata, description,
optional sections; only the `metadata`-last canonical order differs, which
no modelled operation observes). -/
def assembleContextData (category : String) (rules : DocV) (now : String) : DocV :=
  let metaDict : DocV :=
    [("version", .str "1.0.0"),
     ("last_updated", .str now),
     ("created_by", .str "dynamic_context_management"),
     ("applies_to_tools", (alookup rules "applies_to_tools").getD (.list [.str (category ++ ":*")])),
     ("priority", (alookup rules "priority").getD (.str "medium"))]
  let base : DocV :=
    [("tool_category", .str category),
     ("auto_convert", (alookup rules "auto_convert").getD (.bool false)),
     ("description", (alookup rules "description").getD
        (.str ("Dynamically created context for " ++ category)))]
  let withSections :=
    base ++ (["syntax_rules", "preferences", "auto_corrections",
              "session_initialization"].filterMap
      (fun sec => (alookup rules sec).map (fun v => (sec, v))))
  withSections ++ [("metadata", .dict metaDict)]

/-- Embedding of `ContextProvider.create_context_file`.  Here `writeOk` stands for the
success of the `open`/`json.dump` call (its exceptions are caught and
reported as a structured failure). -/
def create_context_file (st : Store) (name category : String) (rules : DocV)
    (now : String) (writeOk : Bool) : OpResult × Store :=
  if ¬ validate_context_name name then
    ({ OpResult.base with
        error := some "Invalid context name. Use only alphanumeric characters, underscores, and hyphens.",
        context_name := some name }, st)
  else if ¬ validate_context_name category then
    ({ OpResult.base with
        error := some "Invalid category name. Use only alphanumeric characters, underscores, and hyphens.",
        context_name := some name }, st)
  else if hasKey st.disk (ctxPath name) then
    ({ OpResult.base with
        error := some ("Context file " ++ ctxPath name ++ " already exists. Use update_context_rules to modify it."),
        context_name := some name,
        existing_file := some (ctxPath name) }, st)
  else
    let context_data := assembleContextData category rules now
    let validation := validate_context_data context_data
    if validation.1 ≠ [] then
      ({ OpResult.base with
          error := some "Context data validation failed",
          validation_errors := validation.1,
          context_name := some name }, st)
    else if writeOk then
      let ds := docOfValue st context_data
      ({ OpResult.base with
          success := true,
          message := some ("Context file " ++ ctxPath name ++ " created successfully"),
          context_name := some name,
          context_file := some (ctxPath name),
          warnings := validation.2 },
       { ds.2 with
          disk := aset ds.2.disk (ctxPath name) context_data,
          contexts := aset ds.2.contexts name ds.1 })
    else
      ({ OpResult.base with
          error := some "Failed to create context file",
          context_name := some name }, st)

/-- The merge loop of `update_context_rules` plus the final
`metadata['last_updated']` refresh, computed on values.  `metaVal` is the
current dict-valued metadata (if any); returns `none` when
`current_data['metadata'].update(value)` is handed a non-dict value and
raises (`dict.update` also accepts key-value sequences, a form no caller
of the modelled API produces and no theorem exercises). -/
def mergeUpdatesVal : DocV → Option DocV → DocV → String → Option (DocV × DocV)
  | fields, metaVal, [], now => some (fields, aset (metaVal.getD []) "last_updated" (.str now))
  | fields, metaVal, (k, v) :: rest, now =>
      if k = "metadata" then
        match v with
        | .dict d =>
            mergeUpdatesVal fields
              (some (aset (dictMerge (metaVal.getD []) d) "last_updated" (.str now))) rest now
        | _ => none
      else mergeUpdatesVal (aset fields k v) metaVal rest now

/-- Embedding of `ContextProvider.update_context_rules`.  The shallow `.copy()` shares
the heap-resident metadata dict, so metadata mutations are written back to
the existing heap cell and are visible from the stored document even when
the call subsequently fails. -/
def update_context_rules (st : Store) (name : String) (updates : DocV)
    (now ts : String) (backupOk writeOk : Bool) : OpResult × Store :=
  if ¬ validate_context_name name then
    ({ OpResult.base with
        error := some "Invalid context name",
        context_name := some name }, st)
  else
    match alookup st.contexts name with
    | none =>
        ({ OpResult.base with
            error := some ("Context " ++ name ++ " not found. Use create_context_file to create it first."),
            context_name := some name,
            available_contexts := st.contexts.map (fun p => p.1) }, st)
    | some doc =>
        let bs := backup_context_file st name ts backupOk
        let backupFile := bs.1
        let st1 := bs.2
        if hasKey doc.fields "metadata" then
          -- a non-dict `metadata` value: both the merge loop and the final
          -- `current_data['metadata']['last_updated'] = ...` raise
          ({ OpResult.base with
              error := some "Failed to update context",
              context_name := some name, backup_file := backupFile }, st1)
        else
          match mergeUpdatesVal doc.fields (doc.meta.map (heapGet st1.heap)) updates now with
          | none =>
              ({ OpResult.base with
                  error := some "Failed to update context",
                  context_name := some name, backup_file := backupFile }, st1)
          | some (fields1, meta1) =>
              let rs : Nat × Store :=
                match doc.meta with
                | some r => (r, { st1 with heap := aset st1.heap r meta1 })
                | none => allocMeta st1 meta1
              let r := rs.1
              let st2 := rs.2
              let merged := fields1 ++ [("metadata", JVal.dict meta1)]
              let validation := validate_context_data merged
              if validation.1 ≠ [] then
                ({ OpResult.base with
                    error := some "Updated context data validation failed",
                    validation_errors := validation.1,
                    context_name := some name,
                    backup_file := backupFile }, st2)
              else if writeOk then
                ({ OpResult.base with
                    success := true,
                    message := some ("Context " ++ name ++ " updated successfully"),
                    context_name := some name,
                    updated_fields := updates.map (fun p => p.1),
                    context_file := some (ctxPath name),
                    backup_file := backupFile,
                    warnings := validation.2 },
                 { st2 with
                    disk := aset st2.disk (ctxPath name) merged,
                    contexts := aset st2.contexts name ⟨fields1, some r⟩ })
              else
                ({ OpResult.base with
                    error := some "Failed to update context",
                    context_name := some name, backup_file := backupFile }, st2)

/-- Embedding of `ContextProvider.add_context_pattern`.  Note: unlike create/update, it
never calls `_validate_context_data`. -/
def add_context_pattern (st : Store) (name pattern_section pattern_name : String)
    (pattern_config : JVal) (now ts : String) (backupOk writeOk : Bool) :
    OpResult × Store :=
  if ¬ validate_context_name name then
    ({ OpResult.base with
        error := some "Invalid context name",
        context_name := some name }, st)
  else
    match alookup st.contexts name with
    | none =>
        ({ OpResult.base with
            error := some ("Context " ++ name ++ " not found"),
            context_name := some name,
            available_contexts := st.contexts.map (fun p => p.1) }, st)
    | some doc =>
        if pattern_section ∉ ["auto_store_triggers", "auto_retrieve_triggers"] then
          ({ OpResult.base with
              error := some "Invalid pattern section",
              context_name := some name }, st)
        else
          let bs := backup_context_file st name ts backupOk
          let backupFile := bs.1
          let st1 := bs.2
          let secVal := (alookup doc.fields pattern_section).getD (.dict [])
          match secVal with
          | .dict d =>
              let fields1 := aset doc.fields pattern_section (.dict (aset d pattern_name pattern_config))
              -- metadata refresh (same shape as in update)
              if hasKey doc.fields "metadata" then
                ({ OpResult.base with
                    error := some "Failed to add pattern",
                    context_name := some name, backup_file := backupFile }, st1)
              else
                let rs : Nat × Store :=
                  match doc.meta with
                  | some r =>
                      (r, { st1 with
                              heap := aset st1.heap r
                                (aset (heapGet st1.heap r) "last_updated" (.str now)) })
                  | none => allocMeta st1 [("last_updated", .str now)]
                let r := rs.1
                let st2 := rs.2
                let merged := fields1 ++ [("metadata", JVal.dict (heapGet st2.heap r))]
                if writeOk then
                  ({ OpResult.base with
                      success := true,
                      message := some ("Pattern " ++ pattern_name ++ " added to " ++ name ++ "." ++ pattern_section),
                      context_name := some name,
                      context_file := some (ctxPath name),
                      backup_file := backupFile },
                   { st2 with
                      disk := aset st2.disk (ctxPath name) merged,
                      contexts := aset st2.contexts name ⟨fields1, some r⟩ })
                else
                  ({ OpResult.base with
                      error := some "Failed to add pattern",
                      context_name := some name, backup_file := backupFile }, st2)
          | _ =>
              -- `current_data[pattern_section][pattern_name] = ...` on a
              -- non-dict section raises; caught by the outer handler
              ({ OpResult.base with
                  error := some "Failed to add pattern",
                  context_name := some name, backup_file := backupFile }, st1)

/-- Metadata heap type. -/
abbrev Heap := List (Nat × DocV)

/-- Python `v == "lit"` for a JSON value against a string literal. -/
def jIsStr (v : JVal) (s : String) : Bool :=
  match v with
  | .str t => t = s
  | _ => false

/-- The element sequence `list.extend(v)` iterates over (lists, strings and
dicts are iterable; other values raise TypeError). -/
def extendIter : JVal → Option (List JVal)
  | .list l => some l
  | .str s => some (s.data.map (fun c => JVal.str ⟨[c]⟩))
  | .dict d => some (d.map (fun p => JVal.str p.1))
  | _ => none

/-- Python `len(v)` for sized values. -/
def pyLen : JVal → Option Nat
  | .list l => some l.length
  | .str s => some s.data.length
  | .dict d => some d.length
  | _ => none

/-- One entry of the `pattern_improvement` loop of
`auto_optimize_context`: when the targeted section exists and is a dict
with a `patterns` key, its `patterns` list is extended in place (the
shared metadata heap cell when the section is `metadata`, otherwise the
copy's field); returns `none` when `list.extend`/`len` raises. -/
def patImpStep (metaRef : Option Nat) (sec : String) (nps : JVal)
    (fields : DocV) (heap : Heap) : Option (DocV × Heap × Option String) :=
  if hasKey fields sec || (decide (sec = "metadata") && metaRef.isSome) then
    if sec = "metadata" ∧ metaRef.isSome = true then
      -- `current_context['metadata']` is the shared heap dict
      if hasKey (heapGet heap (metaRef.getD 0)) "patterns" then
        match alookup (heapGet heap (metaRef.getD 0)) "patterns",
            extendIter nps, pyLen nps with
        | some (.list l), some newElems, some n =>
            some (fields,
              aset heap (metaRef.getD 0)
                (aset (heapGet heap (metaRef.getD 0)) "patterns"
                  (.list (l ++ newElems))),
              some ("Added " ++ toString n ++ " patterns to " ++ sec))
        | _, _, _ => none
      else some (fields, heap, none)
    else
      match alookup fields sec with
      | some (.dict d) =>
          if hasKey d "patterns" then
            match alookup d "patterns", extendIter nps, pyLen nps with
            | some (.list l), some newElems, some n =>
                some (aset fields sec
                    (.dict (aset d "patterns" (.list (l ++ newElems)))),
                  heap,
                  some ("Added " ++ toString n ++ " patterns to " ++ sec))
            | _, _, _ => none
          else some (fields, heap, none)
      | _ => some (fields, heap, none)
  else some (fields, heap, none)

/-- The `pattern_improvement` loop of `auto_optimize_context`.  Returns the
updated copy fields, the heap (mutated in place when the targeted section
is the shared `metadata` dict), the `optimizations_applied` messages and
whether the loop completed without raising.  On a raise the partial state
reached so far is kept, as in Python. -/
def patImpLoop (metaRef : Option Nat) :
    List (String × JVal) → DocV → Heap → List String →
      DocV × Heap × List String × Bool
  | [], fields, heap, applied => (fields, heap, applied, true)
  | (sec, nps) :: rest, fields, heap, applied =>
      match patImpStep metaRef sec nps fields heap with
      | some (f2, h2, m2) => patImpLoop metaRef rest f2 h2 (applied ++ m2.toList)
      | none => (fields, heap, applied, false)

/-- The `preference_tuning` / `rule_refinement` assignment loops of
`auto_optimize_context` (they only differ in the section name and message
text).  An existing non-dict section makes the item assignment raise. -/
def secAssignLoop (secName pre post : String) :
    List (String × JVal) → DocV → List String → DocV × List String × Bool
  | [], fields, applied => (fields, applied, true)
  | (k, v) :: rest, fields, applied =>
      match alookup fields secName with
      | some (.dict d) =>
          secAssignLoop secName pre post rest
            (aset fields secName (.dict (aset d k v))) (applied ++ [pre ++ k ++ post])
      | _ => (fields, applied, false)

/-- The optimization dispatch of `auto_optimize_context`.  Mutations of
sections other than the shared `metadata` dict act on the shallow copy and
are modelled by value (their in-place aliasing is observable only after a
failed call, which no theorem inspects). -/
def applyOptimizations (fields : DocV) (metaRef : Option Nat) (heap : Heap)
    (optdata : DocV) : DocV × Heap × List String × Bool :=
  let otype := (alookup optdata "type").getD (.str "unknown")
  if jIsStr otype "pattern_improvement" then
    match (alookup optdata "patterns").getD (.dict []) with
    | .dict pd => patImpLoop metaRef pd fields heap []
    | _ => (fields, heap, [], false)
  else if jIsStr otype "preference_tuning" then
    match (alookup optdata "preferences").getD (.dict []) with
    | .dict pd =>
        let fields0 :=
          if hasKey fields "preferences" then fields
          else aset fields "preferences" (.dict [])
        let res := secAssignLoop "preferences" "Updated preference " "" pd fields0 []
        (res.1, heap, res.2.1, res.2.2)
    | _ => (fields, heap, [], false)
  else if jIsStr otype "rule_refinement" then
    match (alookup optdata "syntax_rules").getD (.dict []) with
    | .dict pd =>
        let fields0 :=
          if hasKey fields "syntax_rules" then fields
          else aset fields "syntax_rules" (.dict [])
        let res := secAssignLoop "syntax_rules" "Refined " " syntax rules" pd fields0 []
        (res.1, heap, res.2.1, res.2.2)
    | _ => (fields, heap, [], false)
  else (fields, heap, [], true)

/-- Embedding of `ContextProvider.auto_optimize_context` (the state-changing part; the
`optimization_data` argument is the parsed dict).  Note the order: dispatch
→ backup → validate → metadata refresh and counter increment → write →
swap. -/
def auto_optimize_context (st : Store) (name : String) (optdata : DocV)
    (now ts : String) (backupOk writeOk : Bool) : OpResult × Store :=
  match alookup st.contexts name with
  | none =>
      ({ OpResult.base with error := some ("Context " ++ name ++ " not found") }, st)
  | some doc =>
      let ao := applyOptimizations doc.fields doc.meta st.heap optdata
      let fields1 := ao.1
      let heap1 := ao.2.1
      let applied := ao.2.2.1
      let dispatchOk := ao.2.2.2
      let stH := { st with heap := heap1 }
      if ¬ dispatchOk then
        ({ OpResult.base with
            error := some "Auto-optimization failed",
            context_name := some name }, stH)
      else
        let bs := backup_context_file stH name ts backupOk
        let backupFile := bs.1
        let st1 := bs.2
        let mergedPre :=
          match doc.meta with
          | some r => fields1 ++ [("metadata", JVal.dict (heapGet st1.heap r))]
          | none => fields1
        let validation := validate_context_data mergedPre
        if validation.1 ≠ [] then
          ({ OpResult.base with
              error := some "Optimized context validation failed",
              validation_errors := validation.1,
              backup_file := backupFile }, st1)
        else
          match doc.meta with
          | some r =>
              let m := heapGet st1.heap r
              let m2 := aset (aset m "last_updated" (.str now)) "last_optimization" (.str now)
              let countNew : Option Int :=
                match alookup m2 "optimization_count" with
                | some (.num n) => some (n + 1)
                | none => some 1
                | some _ => none
              match countNew with
              | none =>
                  -- non-numeric counter: `.get(...) + 1` raises after the
                  -- two timestamp writes already hit the shared dict
                  ({ OpResult.base with
                      error := some "Auto-optimization failed",
                      context_name := some name },
                   { st1 with heap := aset st1.heap r m2 })
              | some cnt =>
                  let m3 := aset m2 "optimization_count" (.num cnt)
                  let st2 := { st1 with heap := aset st1.heap r m3 }
                  if writeOk then
                    ({ OpResult.base with
                        success := true,
                        message := some ("Context " ++ name ++ " optimized successfully"),
                        context_name := some name,
                        optimizations_applied := applied,
                        backup_file := backupFile },
                     { st2 with
                        disk := aset st2.disk (ctxPath name)
                          (fields1 ++ [("metadata", JVal.dict m3)]),
                        contexts := aset st2.contexts name ⟨fields1, some r⟩ })
                  else
                    ({ OpResult.base with
                        error := some "Auto-optimization failed",
                        context_name := some name }, st2)
          | none =>
              if hasKey fields1 "metadata" then
                -- raw non-dict metadata (unreachable past validation)
                ({ OpResult.base with
                    error := some "Auto-optimization failed",
                    context_name := some name }, st1)
              else
                let m3 : DocV :=
                  [("last_updated", .str now), ("last_optimization", .str now),
                   ("optimization_count", .num 1)]
                let al := allocMeta st1 m3
                if writeOk then
                  ({ OpResult.base with
                      success := true,
                      message := some ("Context " ++ name ++ " optimized successfully"),
                      context_name := some name,
                      optimizations_applied := applied,
                      backup_file := backupFile },
                   { al.2 with
                      disk := aset al.2.disk (ctxPath name)
                        (fields1 ++ [("metadata", JVal.dict m3)]),
                      contexts := aset al.2.contexts name ⟨fields1, some al.1⟩ })
                else
                  ({ OpResult.base with
                      error := some "Auto-optimization failed",
                      context_name := some name }, st1)

/-- Prefix extraction `tool_name.split(':')[0] if ':' in tool_name else tool_name`. -/
def takeUntilColon : List Char → List Char
  | [] => []
  | c :: rest => if c = ':' then [] else c :: takeUntilColon rest

/-- The tool category a tool identifier resolves through. -/
def toolCategoryOf (tool_name : String) : String :=
  ⟨takeUntilColon tool_name.data⟩

/-- Embedding of `ContextProvider.get_tool_context`: resolve on the prefix before the
first colon; unknown categories yield the empty document. -/
def get_tool_context (st : Store) (tool_name : String) : Doc :=
  (alookup st.contexts (toolCategoryOf tool_name)).getD ⟨[], none⟩

/-- Substring test (Python `needle in hay` on strings). -/
def containsSub : List Char → List Char → Bool
  | [], needle => needle.isEmpty
  | c :: rest, needle => needle.isPrefixOf (c :: rest) || containsSub rest needle

/-- One `auto_corrections` entry of the loop in `apply_auto_corrections`:
entries with both a `pattern` and a `replacement` string are applied by
`re.sub`; entries missing either key are skipped; a non-dict entry whose
membership test succeeds raises when indexed (only `re.error` is caught by
the source, so those TypeErrors propagate). -/
def applyRuleStep (acc : String) (rule : JVal) : Except String String :=
  match rule with
  | .dict d =>
      match alookup d "pattern", alookup d "replacement" with
      | some (.str p), some (.str r) => .ok (reSub p r acc)
      | some _, some _ => .error "TypeError"
      | _, _ => .ok acc
  | .str s =>
      if containsSub s.data "pattern".data && containsSub s.data "replacement".data then
        .error "TypeError"
      else .ok acc
  | .list l =>
      if l.any (fun v => jIsStr v "pattern") && l.any (fun v => jIsStr v "replacement") then
        .error "TypeError"
      else .ok acc
  | _ => .error "TypeError"

/-- The correction loop: rules applied one after the other, in stored
order, each rule reading the previous rule's output. -/
def applyRulesList : List (String × JVal) → String → Except String String
  | [], acc => .ok acc
  | (_, rv) :: rest, acc =>
      match applyRuleStep acc rv with
      | .ok acc1 => applyRulesList rest acc1
      | .error e => .error e

/-- Embedding of `ContextProvider.apply_auto_corrections`. -/
def apply_auto_corrections (st : Store) (tool_name text : String) :
    Except String String :=
  let context := get_tool_context st tool_name
  match (alookup context.fields "auto_corrections").getD (.dict []) with
  | .dict rules => applyRulesList rules text
  | _ => .error "AttributeError"

/-- Suffix test `s.endswith(suffix)`. -/
def strEndsWith (s suffix : String) : Bool :=
  List.isSuffixOf suffix.data s.data

/-- The context name derived from a file name
(`str.replace` removes every occurrence of the suffix; `reSub` with a
literal pattern is exactly `str.replace`). -/
def contextNameOf (fname : String) : Option String :=
  if strEndsWith fname "_context.json" then some (reSub "_context.json" "" fname)
  else if strEndsWith fname ".json" then some (reSub ".json" "" fname)
  else none

/-- Embedding of `ContextProvider.load_all_contexts`: files matching the
preferred context naming convention first, then
the remaining top-level `*.json` files (within each group in directory
order), later files overwriting earlier ones of the same derived name. -/
def load_all_contexts (disk : List (String × DocV)) (autoLoad : Bool) : Store :=
  if ¬ autoLoad then ⟨[], [], 0, disk⟩
  else
    let top := disk.filter (fun p => ¬ p.1.data.contains '/')
    let ctxFiles := top.filter (fun p => strEndsWith p.1 "_context.json")
    let otherFiles := top.filter
      (fun p => strEndsWith p.1 ".json" && ¬ strEndsWith p.1 "_context.json")
    (ctxFiles ++ otherFiles).foldl
      (fun st p =>
        match contextNameOf p.1 with
        | some cname =>
            let ds := docOfValue st p.2
            { ds.2 with contexts := aset ds.2.contexts cname ds.1 }
        | none => st)
      ⟨[], [], 0, disk⟩

/-- Python truthiness of a JSON value. -/
def pyTruthy : JVal → Bool
  | .null => false
  | .bool b => b
  | .num n => decide (n ≠ 0)
  | .str s => decide (s ≠ "")
  | .list l => !l.isEmpty
  | .dict d => !d.isEmpty

/-- Dict access `v.get(k, dflt)`: raises AttributeError on non-dicts. -/
def pyDictGet (v : JVal) (k : String) (dflt : JVal) : Except String JVal :=
  match v with
  | .dict d => .ok ((alookup d k).getD dflt)
  | _ => .error "AttributeError"

/-- Iteration `for x in v`: lists yield elements, strings their characters, dicts
their keys; numbers/booleans/None raise TypeError. -/
def pyIter : JVal → Except String (List JVal)
  | .list l => .ok l
  | .str s => .ok (s.data.map (fun c => JVal.str ⟨[c]⟩))
  | .dict d => .ok (d.map (fun p => JVal.str p.1))
  | _ => .error "TypeError"

/-- Python `v[:n]` for a list, with negative-index slicing. -/
def pySlice (l : List JVal) (n : Int) : List JVal :=
  if n < 0 then l.take (l.length - (-n).toNat) else l.take n.toNat

/-- Availability flag: `MemoryServiceIntegration._check_memory_service` returns `True`
unconditionally. -/
def memoryAvailable : Bool := true

/-- Embedding of `MemoryServiceIntegration.store_memory` (simulated backend): always
succeeds while the service is available. -/
def store_memory_sim (content tags : JVal) (memId : String) : List (String × JVal) :=
  if ¬ memoryAvailable then
    [("success", .bool false), ("error", .str "Memory service not available")]
  else
    [("success", .bool true), ("stored_content", content), ("tags", tags),
     ("memory_id", .str memId)]

/-- The two canned recall result lists plus the default entry of
`MemoryServiceIntegration.recall_memory`. -/
def recallCanned (query : String) (now : String) : List JVal :=
  let ql := strLower query
  if containsSub ql.data "implementation".data || containsSub ql.data "phase".data then
    [.dict [("content", .str "Completed Phase 1: Session initialization with memory service integration"),
            ("relevance", .str "0.95"),
            ("tags", .list [.str "implementation", .str "phase1", .str "session-initialization"]),
            ("timestamp", .str "2025-09-17T22:21:11.526615")],
     .dict [("content", .str "Completed Phase 2: Dynamic context management with security framework"),
            ("relevance", .str "0.93"),
            ("tags", .list [.str "implementation", .str "phase2", .str "dynamic-context"]),
            ("timestamp", .str "2025-09-17T22:28:56.857968")]]
  else if containsSub ql.data "technical".data || containsSub ql.data "pattern".data then
    [.dict [("content", .str "MCP tool extension pattern using decorators scales excellently"),
            ("relevance", .str "0.87"),
            ("tags", .list [.str "technical", .str "pattern", .str "mcp"]),
            ("timestamp", .str "2025-09-17T22:21:11.526615")],
     .dict [("content", .str "Security-first design with multi-layer validation prevents malformed contexts"),
            ("relevance", .str "0.85"),
            ("tags", .list [.str "technical", .str "security", .str "validation"]),
            ("timestamp", .str "2025-09-17T22:28:56.857968")]]
  else
    [.dict [("content", .str "Successfully established mcp-memory-service integration in this repository"),
            ("relevance", .str "0.92"),
            ("tags", .list [.str "setup", .str "memory-service", .str "integration"]),
            ("timestamp", .str now)]]

/-- Embedding of `MemoryServiceIntegration.recall_memory` (simulated): non-string
queries and non-integer limits raise inside its own try and produce the
failure dict. -/
def recall_memory_sim (query n_results : JVal) (now : String) : List (String × JVal) :=
  if ¬ memoryAvailable then
    [("success", .bool false), ("error", .str "Memory service not available")]
  else
    match query, n_results with
    | .str q, .num n =>
        let results := recallCanned q now
        [("success", .bool true), ("query", .str q),
         ("results", .list (pySlice results n)),
         ("total_results", .num results.length)]
    | _, _ =>
        [("success", .bool false), ("error", .str "Failed to recall memory")]

/-- The canned tag table of `MemoryServiceIntegration.search_by_tag`. -/
def tagTable : List (String × List String) :=
  [("implementation",
    ["Phase 1: Session initialization system with memory integration",
     "Phase 2: Dynamic context management with security framework",
     "Successfully established mcp-memory-service in repository"]),
   ("technical",
    ["MCP tool extension pattern scales excellently",
     "Security-first design prevents malformed contexts",
     "Atomic operations with backup-first approach"]),
   ("decision",
    ["Decided to build on mcp-memory-service instead of separate database",
     "Agreed that security-first approach essential for dynamic contexts",
     "Established simulation layer for development testing"]),
   ("learning",
    ["Performance optimization achieved <0.01 second execution",
     "100% test coverage crucial for dynamic context management",
     "Multi-layer validation prevents security issues"])]

/-- Embedding of `MemoryServiceIntegration.search_by_tag` (simulated), limit 10 as
passed by the session initializer. -/
def search_by_tag_sim (tags : JVal) (now : String) : List (String × JVal) :=
  if ¬ memoryAvailable then
    [("success", .bool false), ("error", .str "Memory service not available")]
  else
    match tags with
    | .list ts =>
        let results := (ts.map (fun t =>
          match t with
          | .str s =>
              match alookup tagTable s with
              | some contents =>
                  contents.map (fun c => JVal.dict
                    [("content", .str c), ("tags", .list [.str s]),
                     ("timestamp", .str now), ("relevance", .str "0.9")])
              | none => []
          | _ => [])).flatten
        [("success", .bool true), ("tags", tags),
         ("results", .list (results.take 10)),
         ("total_results", .num results.length)]
    | _ =>
        [("success", .bool false), ("error", .str "Failed to search by tag")]

/-- Comma join (Python str.join with a comma-space separator): every element
must be a string. -/
def pyJoinComma : List JVal → Option String
  | [] => some ""
  | [.str s] => some s
  | .str s :: rest =>
      match pyJoinComma rest with
      | some t => some (s ++ ", " ++ t)
      | none => none
  | _ => none

/-- Embedding of `ContextProvider._execute_memory_action`: total (it catches every
exception itself and returns an error dict). -/
def execute_memory_action (action_type parameters : JVal) (now memId : String) :
    List (String × JVal) :=
  match parameters with
  | .dict ps =>
      if jIsStr action_type "recall_memory" then
        let query := (alookup ps "query").getD (.str "")
        let n_results := (alookup ps "n_results").getD (.num 5)
        let result := recall_memory_sim query n_results now
        if pyTruthy ((alookup result "success").getD .null) then
          let rs := match (alookup result "results").getD (.list []) with
            | .list l => l
            | _ => []
          [("action", .str "recall_memory"), ("query", query),
           ("results", .list rs), ("results_count", .num rs.length),
           ("summary", .str ("Retrieved " ++ toString rs.length ++
              " memories matching " ++ pyStr query))]
        else
          [("action", .str "recall_memory"), ("query", query),
           ("error", (alookup result "error").getD .null),
           ("summary", .str "Failed to retrieve memories")]
      else if jIsStr action_type "search_by_tag" then
        let tags := (alookup ps "tags").getD (.list [])
        let result := search_by_tag_sim tags now
        if pyTruthy ((alookup result "success").getD .null) then
          let rs := match (alookup result "results").getD (.list []) with
            | .list l => l
            | _ => []
          match tags with
          | .list ts =>
              match pyJoinComma ts with
              | some joined =>
                  [("action", .str "search_by_tag"), ("tags", tags),
                   ("results", .list rs), ("results_count", .num rs.length),
                   ("summary", .str ("Found " ++ toString rs.length ++
                      " items with tags: " ++ joined))]
              | none =>
                  -- `', '.join` on non-string tags raises; caught here
                  [("action", .str "search_by_tag"), ("parameters", parameters),
                   ("error", .str "Exception during memory action"),
                   ("summary", .str "Failed to execute search_by_tag")]
          | _ =>
              [("action", .str "search_by_tag"), ("parameters", parameters),
               ("error", .str "Exception during memory action"),
               ("summary", .str "Failed to execute search_by_tag")]
        else
          [("action", .str "search_by_tag"), ("tags", tags),
           ("error", (alookup result "error").getD .null),
           ("summary", .str "Failed to search by tags")]
      else if jIsStr action_type "store_memory" then
        let content := (alookup ps "content").getD (.str "")
        let tags := (alookup ps "tags").getD (.list [])
        let result := store_memory_sim content tags memId
        match content, tags with
        | .str c, .list ts =>
            match pyJoinComma ts with
            | some joined =>
                if pyTruthy ((alookup result "success").getD .null) then
                  [("action", .str "store_memory"), ("content", .str c),
                   ("tags", tags),
                   ("memory_id", (alookup result "memory_id").getD .null),
                   ("summary", .str ("Stored memory with tags: " ++ joined))]
                else
                  [("action", .str "store_memory"), ("content", .str c),
                   ("error", (alookup result "error").getD .null),
                   ("summary", .str "Failed to store memory")]
            | none =>
                [("action", .str "store_memory"), ("parameters", parameters),
                 ("error", .str "Exception during memory action"),
                 ("summary", .str "Failed to execute store_memory")]
        | _, _ =>
            -- `len(content)` / join on wrong types raises; caught here
            [("action", .str "store_memory"), ("parameters", parameters),
             ("error", .str "Exception during memory action"),
             ("summary", .str "Failed to execute store_memory")]
      else
        [("action", action_type), ("parameters", parameters),
         ("error", .str ("Unknown action type: " ++ pyStr action_type)),
         ("summary", .str ("Unknown action " ++ pyStr action_type))]
  | _ =>
      -- `parameters.get(...)` raised inside the try; caught
      [("action", action_type), ("parameters", parameters),
       ("error", .str "Exception during memory action"),
       ("summary", .str "Failed to execute action")]

/-- The mutable `self.session_status` record. -/
structure SessionStatus : Type where
  initialized : Bool
  initialization_time : Option String
  executed_actions : List JVal
  errors : List String
  memory_retrieval_results : List (String × JVal)
  execution_time_seconds : Option Int
  initialized_contexts : List String
  learning_insights : Option JVal

/-- The per-action body of
`ContextProvider._execute_context_initialization`.  A non-dict
`action_config` makes the `except` handler itself raise (it re-reads
`action_config.get('action', 'unknown')`), so that error propagates. -/
def runStartupActions (cname : String) :
    List JVal → SessionStatus → String → String → Except String SessionStatus
  | [], status, _, _ => .ok status
  | a :: rest, status, now, memId =>
      match a with
      | .dict d =>
          let atype := (alookup d "action").getD .null
          let params := (alookup d "parameters").getD (.dict [])
          let desc := (alookup d "description").getD (.str ("Execute " ++ pyStr atype))
          let result := execute_memory_action atype params now memId
          let ea := JVal.dict
            [("context", .str cname), ("action", atype), ("description", desc),
             ("parameters", params),
             ("result_summary", (alookup result "summary").getD (.str "No summary available")),
             ("status", .str "success")]
          let status1 := { status with executed_actions := status.executed_actions ++ [ea] }
          let status2 :=
            if jIsStr atype "recall_memory" || jIsStr atype "search_by_tag" then
              { status1 with
                  memory_retrieval_results := aset status1.memory_retrieval_results
                    (cname ++ "_" ++ pyStr atype) (.dict result) }
            else status1
          runStartupActions cname rest status2 now memId
      | _ => .error "AttributeError"

/-- Embedding of `ContextProvider._execute_context_initialization` for one context. -/
def execute_context_initialization (cname : String) (doc : Doc)
    (status : SessionStatus) (now memId : String) : Except String SessionStatus :=
  let si := (alookup doc.fields "session_initialization").getD (.dict [])
  match pyDictGet si "actions" (.dict []) with
  | .error e => .error e
  | .ok actions =>
      match pyDictGet actions "on_startup" (.list []) with
      | .error e => .error e
      | .ok onsRaw =>
          match pyIter onsRaw with
          | .error e => .error e
          | .ok ons => runStartupActions cname ons status now memId

/-- The context loop of `execute_session_initialization`, also collecting
`initialized_contexts`. -/
def sessionInitLoop :
    List (String × Doc) → SessionStatus → List String → String → String →
      Except String (SessionStatus × List String)
  | [], status, inits, _, _ => .ok (status, inits)
  | (cn, doc) :: rest, status, inits, now, memId =>
      let si := (alookup doc.fields "session_initialization").getD (.dict [])
      match pyDictGet si "enabled" (.bool false) with
      | .error e => .error e
      | .ok en =>
          if pyTruthy en then
            match execute_context_initialization cn doc status now memId with
            | .error e => .error e
            | .ok status1 => sessionInitLoop rest status1 (inits ++ [cn]) now memId
          else sessionInitLoop rest status inits now memId

/-- Embedding of `ContextLearningEngine.learn_from_session_patterns`: note the returned
dict carries the key `insights_gained` (and no key `insights`). -/
def learn_from_session_patterns (status : SessionStatus) (memId : String) :
    List (String × JVal) :=
  if ¬ status.initialized then
    [("success", .bool false), ("error", .str "Session not initialized")]
  else
    let et := status.execution_time_seconds.getD 0
    let n := status.executed_actions.length
    let k := status.errors.length
    let content := "Session learning: Executed " ++ toString n ++ " actions in " ++
      toString et ++ "s with " ++ toString k ++ " errors"
    let storage := store_memory_sim (.str content)
      (.list [.str "session_learning", .str "performance", .str "initialization"]) memId
    let insights :=
      (if et > 1 then
        ["Session initialization took longer than expected - optimize memory queries"]
       else []) ++
      (if k > 0 then ["Session had errors - review context configurations"] else []) ++
      (if n = 0 then
        ["No session actions executed - consider adding more initialization contexts"]
       else [])
    [("success", .bool true),
     ("patterns_learned", .num n),
     ("insights_gained", .list (insights.map .str)),
     ("session_analysis", .dict
        [("execution_time", .num et), ("actions_executed", .num n),
         ("errors_count", .num k)]),
     ("memory_stored", (alookup storage "success").getD (.bool false))]

/-- Embedding of `ContextProvider.execute_session_initialization`.  Here `execTime` stands
for the measured wall-clock duration (a float in Python; only its presence
matters to any theorem).  The source then reads
`learning_result['insights']` — a key `learn_from_session_patterns` never
produces. -/
def execute_session_initialization (st : Store) (now : String) (execTime : Int)
    (memId : String) : Except String SessionStatus :=
  match sessionInitLoop st.contexts
      ⟨false, some now, [], [], [], none, [], none⟩ [] now memId with
  | .error e => .error e
  | .ok si =>
      let s1 := { si.1 with
        execution_time_seconds := some execTime,
        initialized := true,
        initialized_contexts := si.2 }
      let learning := learn_from_session_patterns s1 memId
      if pyTruthy ((alookup learning "success").getD .null) then
        match alookup learning "insights" with
        | some v => .ok { s1 with learning_insights := some v }
        | none => .error "KeyError: insights"
      else .ok s1

theorem alookup_append {κ : Type} [DecidableEq κ] {α : Type}
    (l1 l2 : List (κ × α)) (k : κ) :
    alookup (l1 ++ l2) k =
      match alookup l1 k with
      | some v => some v
      | none => alookup l2 k := by
  induction l1 with
  | nil => simp [alookup]
  | cons hd t ih =>
      by_cases hk : hd.1 = k
      · simp [alookup, hk]
      · simp [alookup, hk, ih]

/-- Lookup in the optional-sections part of `assembleContextData`. -/
theorem alookup_filterMap_not_mem (rules : DocV) (secList : List String)
    (s : String) (hs : s ∉ secList) :
    alookup (secList.filterMap
      (fun sec => (alookup rules sec).map (fun v => (sec, v)))) s = none := by
  induction secList with
  | nil => simp [alookup]
  | cons hd t ih =>
      have hne : hd ≠ s := fun he => hs (he ▸ List.mem_cons_self hd t)
      have ht : s ∉ t := fun hmem => hs (List.mem_cons_of_mem hd hmem)
      cases hv : alookup rules hd with
      | none => simpa [List.filterMap_cons, hv] using ih ht
      | some v => simpa [List.filterMap_cons, hv, alookup, hne] using ih ht

theorem alookup_filterMap_mem (rules : DocV) (secList : List String)
    (s : String) (hnd : secList.Nodup) (hs : s ∈ secList) :
    alookup (secList.filterMap
      (fun sec => (alookup rules sec).map (fun v => (sec, v)))) s =
      alookup rules s := by
  induction secList with
  | nil => simp at hs
  | cons hd t ih =>
      rcases List.mem_cons.mp hs with he | hmem
      · subst he
        have hnotin : s ∉ t := (List.nodup_cons.mp hnd).1
        cases hv : alookup rules s with
        | none => simpa [List.filterMap_cons, hv] using
            alookup_filterMap_not_mem rules t s hnotin
        | some v => simp [List.filterMap_cons, hv, alookup]
      · by_cases he : hd = s
        · subst he
          have hnotin : hd ∉ t := (List.nodup_cons.mp hnd).1
          exact absurd hmem hnotin
        · have hnd2 : t.Nodup := (List.nodup_cons.mp hnd).2
          cases hv : alookup rules hd with
          | none => simpa [List.filterMap_cons, hv] using ih hnd2 hmem
          | some v => simpa [List.filterMap_cons, hv, alookup, he] using ih hnd2 hmem

theorem backup_preserves_heap (st : Store) (name ts : String) (ok : Bool) :
    (backup_context_file st name ts ok).2.heap = st.heap := by
  unfold backup_context_file
  cases alookup st.disk (ctxPath name) with
  | none => rfl
  | some v => cases ok <;> rfl

theorem backup_preserves_contexts (st : Store) (name ts : String) (ok : Bool) :
    (backup_context_file st name ts ok).2.contexts = st.contexts := by
  unfold backup_context_file
  cases alookup st.disk (ctxPath name) with
  | none => rfl
  | some v => cases ok <;> rfl

/-- A valid context name contains no slash (so context files and backup
files never collide). -/
theorem no_slash_of_valid_name (n : String) (h : validate_context_name n = true) :
    '/' ∉ n.data := by
  intro hmem
  have hmatch : nameMatchList n.data = true := by
    unfold validate_context_name at h
    exact (Bool.and_eq_true_iff.mp
      ((Bool.and_eq_true_iff.mp ((Bool.and_eq_true_iff.mp h).1)).1)).1
  cases hd : n.data with
  | nil => rw [hd] at hmem; simp at hmem
  | cons c cs =>
      rw [hd] at hmatch hmem
      unfold nameMatchList at hmatch
      rcases Bool.or_eq_true_iff.mp hmatch with hall | htail
      · have := List.all_eq_true.mp hall _ hmem
        simp [nameClassChar] at this
      · rcases hgl : (c :: cs).getLast? with _ | glc
        · simp [hgl] at htail
        · rw [hgl] at htail
          have h1 : glc = '\n' := by
            have := (Bool.and_eq_true_iff.mp ((Bool.and_eq_true_iff.mp htail).1)).1
            simpa using this
          have h2 : (c :: cs).dropLast.all nameClassChar = true :=
            (Bool.and_eq_true_iff.mp htail).2
          have hne : (c :: cs) ≠ [] := by simp
          have hsplit : (c :: cs).dropLast ++ [(c :: cs).getLast hne] = c :: cs :=
            List.dropLast_append_getLast hne
          have hglv : (c :: cs).getLast hne = glc := by
            have := List.getLast?_eq_getLast (c :: cs) hne
            rw [hgl] at this
            exact (Option.some_inj.mp this).symm
          rw [← hsplit] at hmem
          rcases List.mem_append.mp hmem with hin | hlast
          · have := List.all_eq_true.mp h2 _ hin
            simp [nameClassChar] at this
          · rw [hglv, h1] at hlast
            simp at hlast

theorem ctxPath_ne_backupPath (name ts : String)
    (h : validate_context_name name = true) :
    ctxPath name ≠ backupPath name ts := by
  intro he
  have hdata : (ctxPath name).data = (backupPath name ts).data := by rw [he]
  have hl : '/' ∉ (ctxPath name).data := by
    unfold ctxPath
    rw [String.data_append]
    intro hmem
    rcases List.mem_append.mp hmem with h1 | h2
    · exact no_slash_of_valid_name name h h1
    · simp [String.data] at h2
  have hr : '/' ∈ (backupPath name ts).data := by
    unfold backupPath
    rw [String.data_append]
    apply List.mem_append.mpr
    left
    rw [String.data_append]
    apply List.mem_append.mpr
    left
    rw [String.data_append]
    apply List.mem_append.mpr
    left
    rw [String.data_append]
    apply List.mem_append.mpr
    left
    decide
  rw [hdata] at hl
  exact hl hr

theorem backup_preserves_ctx_file (st : Store) (name ts : String) (ok : Bool)
    (h : validate_context_name name = true) :
    alookup (backup_context_file st name ts ok).2.disk (ctxPath name) =
      alookup st.disk (ctxPath name) := by
  unfold backup_context_file
  cases hv : alookup st.disk (ctxPath name) with
  | none => exact hv
  | some v =>
      cases ok with
      | false => exact hv
      | true =>
          show alookup (aset st.disk (backupPath name ts) v) (ctxPath name) = some v
          rw [alookup_aset_ne _ _ _ _ (fun he => ctxPath_ne_backupPath name ts h he.symm)]
          exact hv

theorem applyRulesList_append (l1 l2 : List (String × JVal)) (t : String) :
    applyRulesList (l1 ++ l2) t =
      match applyRulesList l1 t with
      | .ok t1 => applyRulesList l2 t1
      | .error e => .error e := by
  induction l1 generalizing t with
  | nil => simp [applyRulesList]
  | cons hd rest ih =>
      rcases hd with ⟨nm, rv⟩
      simp only [List.cons_append, applyRulesList]
      cases applyRuleStep t rv with
      | ok t1 => exact ih t1
      | error e => rfl

/-- The two-rule document of the spec's ordered-application test case:
corrections a→b then b→c. -/
def c4rulesAB : List (String × JVal) :=
  [("c1", .dict [("pattern", .str "a"), ("replacement", .str "b")]),
   ("c2", .dict [("pattern", .str "b"), ("replacement", .str "c")])]

/-- The same two rules in the opposite stored order. -/
def c4rulesBA : List (String × JVal) :=
  [("c2", .dict [("pattern", .str "b"), ("replacement", .str "c")]),
   ("c1", .dict [("pattern", .str "a"), ("replacement", .str "b")])]

/-- Store holding a context `t` with corrections in a→b, b→c order. -/
def c4storeAB : Store :=
  ⟨[("t", ⟨[("tool_category", .str "t"), ("description", .str "d"),
            ("auto_corrections", .dict c4rulesAB)], none⟩)], [], 0, []⟩

/-- Store holding a context `t` with the same corrections reversed. -/
def c4storeBA : Store :=
  ⟨[("t", ⟨[("tool_category", .str "t"), ("description", .str "d"),
            ("auto_corrections", .dict c4rulesBA)], none⟩)], [], 0, []⟩

/-- C4: `apply_auto_corrections` applies the `auto_corrections` entries in
the document's stored order and feeds each rule's output into the next
rule: the loop is exactly the sequential composition of its rules
(splitting the rule list anywhere composes the two halves, with the first
half's output fed to the second half), and on the spec's test document
with corrections [("a"->"b"), ("b"->"c")] input "a" yields "c", while the
reversed order yields "b". -/
theorem auto_corrections_ordered_application :
    (∀ (st : Store) (tool text : String) (rules : List (String × JVal)),
        alookup (get_tool_context st tool).fields "auto_corrections" =
          some (.dict rules) →
        apply_auto_corrections st tool text = applyRulesList rules text) ∧
    (∀ (l1 l2 : List (String × JVal)) (t : String),
        applyRulesList (l1 ++ l2) t =
          match applyRulesList l1 t with
          | .ok t1 => applyRulesList l2 t1
          | .error e => .error e) ∧
    apply_auto_corrections c4storeAB "t" "a" = .ok "c" ∧
    apply_auto_corrections c4storeBA "t" "a" = .ok "b" :=
  ⟨fun st tool text rules h => by
      simp [apply_auto_corrections, h],
   applyRulesList_append, rfl, rfl⟩

/-- C4 witness: the composition part applied at the spec's test document,
splitting its two rules. -/
theorem auto_corrections_ordered_application_witness :
    apply_auto_corrections c4storeAB "t" "a" = applyRulesList c4rulesAB "a" ∧
    applyRulesList (c4rulesAB.take 1 ++ c4rulesAB.drop 1) "a" =
      match applyRulesList (c4rulesAB.take 1) "a" with
      | .ok t1 => applyRulesList (c4rulesAB.drop 1) t1
      | .error e => .error e :=
  ⟨auto_corrections_ordered_application.1 c4storeAB "t" "a" c4rulesAB rfl,
   auto_corrections_ordered_application.2.1 (c4rulesAB.take 1) (c4rulesAB.drop 1) "a"⟩

/-- C10: each applied rule performs a global (all non-overlapping
occurrences) substitution, not a first-occurrence one: a single-rule
document reduces to `reSub`, and `reSub` replaces the leftmost occurrence
and then keeps substituting in the remaining text; concretely
`re.sub("a", "b", "aca")` rewrites both occurrences. -/
theorem resub_global_substitution :
    (∀ (nm p r t : String),
        applyRulesList [(nm, .dict [("pattern", .str p), ("replacement", .str r)])] t =
          .ok (reSub p r t)) ∧
    (∀ (p r a b : List Char), p ≠ [] →
        (∀ i, i < a.length → p.isPrefixOf (List.drop i (a ++ p ++ b)) = false) →
        reSubList p r (a ++ p ++ b) = a ++ r ++ reSubList p r b) ∧
    reSub "a" "b" "aca" = "bcb" :=
  ⟨fun _ _ _ _ => rfl,
   fun p r a b hp hocc => reSubList_global p r hp a b hocc,
   rfl⟩

/-- C10 witness: the global-substitution part at a concrete text with an
occurrence after the prefix and another in the tail. -/
theorem resub_global_substitution_witness :
    reSubList ['a'] ['b'] (['x'] ++ ['a'] ++ ['c', 'a']) =
      ['x'] ++ ['b'] ++ reSubList ['a'] ['b'] ['c', 'a'] :=
  resub_global_substitution.2.1 ['a'] ['b'] ['x'] ['c', 'a']
    (by decide) (by decide)

/-- The `YYYYMMDD_HHMMSS` shape produced by
`datetime.now().strftime('%Y%m%d_%H%M%S')`: 8 digits, an underscore, 6
digits. -/
def isTimestampL (l : List Char) : Bool :=
  decide (l.length = 15) && (l.take 8).all Char.isDigit &&
  decide ((l.drop 8).take 1 = ['_']) && (l.drop 9).all Char.isDigit

/-- String form of `isTimestampL`. -/
def isTimestampStr (s : String) : Bool := isTimestampL s.data

/-- The backup filename pattern the spec claims:
`<name>_<YYYYMMDD_HHMMSS>.json`. -/
def claimedBackupName (name fname : String) : Bool :=
  let l := fname.data
  let n := name.data
  (n ++ ['_']).isPrefixOf l && List.isSuffixOf (".json".data) l &&
  isTimestampL ((l.drop (n.length + 1)).take ((l.drop (n.length + 1)).length - 5))

/-- C7 counterexample: backing up context `git` at timestamp
`20250101_120000` writes `backups/git_context_20250101_120000.json` — a
filename that does NOT match the claimed `<name>_<YYYYMMDD_HHMMSS>.json`
pattern (the written name carries an extra `_context` component), even
though the timestamp itself is well-formed.  The file content is the
pre-call context file. -/
theorem backup_filename_pattern_cex :
    (backup_context_file
        ⟨[], [], 0, [("git_context.json", [("tool_category", JVal.str "git")])]⟩
        "git" "20250101_120000" true).1 =
      some "backups/git_context_20250101_120000.json" ∧
    claimedBackupName "git" "git_context_20250101_120000.json" = false ∧
    isTimestampStr "20250101_120000" = true ∧
    alookup (backup_context_file
        ⟨[], [], 0, [("git_context.json", [("tool_category", JVal.str "git")])]⟩
        "git" "20250101_120000" true).2.disk
      "backups/git_context_20250101_120000.json" =
      some [("tool_category", JVal.str "git")] :=
  ⟨rfl, by decide, by decide, rfl⟩

/-- C7 amended: a successful backup of `<name>` is written under the
`backups/` subdirectory with filename `<name>_context_<YYYYMMDD_HHMMSS>.json`
(the stem of the context file plus the timestamp), and its content is the
pre-call context file. -/
theorem backup_filename_amended (st : Store) (name ts : String) (v : DocV)
    (hfile : alookup st.disk (ctxPath name) = some v) :
    (backup_context_file st name ts true).1 =
      some ("backups/" ++ name ++ "_context_" ++ ts ++ ".json") ∧
    alookup (backup_context_file st name ts true).2.disk
      ("backups/" ++ name ++ "_context_" ++ ts ++ ".json") = some v := by
  have h2 : backup_context_file st name ts true =
      (some (backupPath name ts),
       { st with disk := aset st.disk (backupPath name ts) v }) := by
    unfold backup_context_file
    rw [hfile]
    rfl
  refine ⟨?_, ?_⟩
  · rw [h2]
    rfl
  · rw [h2]
    exact alookup_aset_self _ _ _

/-- C7 witness: the amended statement at a concrete store. -/
theorem backup_filename_amended_witness :
    (backup_context_file ⟨[], [], 0, [("a_context.json", [])]⟩
        "a" "20250101_120000" true).1 =
      some ("backups/" ++ "a" ++ "_context_" ++ "20250101_120000" ++ ".json") ∧
    alookup (backup_context_file ⟨[], [], 0, [("a_context.json", [])]⟩
        "a" "20250101_120000" true).2.disk
      ("backups/" ++ "a" ++ "_context_" ++ "20250101_120000" ++ ".json") =
      some [] :=
  backup_filename_amended ⟨[], [], 0, [("a_context.json", [])]⟩
    "a" "20250101_120000" [] rfl

/-- Store for the C2 failing input: context `git` whose metadata dict
(heap cell 0) holds only a version. -/
def c2store : Store :=
  ⟨[("git", ⟨[("tool_category", .str "git"), ("description", .str "d")], some 0⟩)],
   [(0, [("version", .str "1.0.0")])], 1, []⟩

/-- C2 (code bug): an update whose merged document fails validation
(`description` set to a number) returns `success = false`, yet the
in-memory document is left dirty: the stored document still points at heap
cell 0 and that shared metadata dict now carries the refreshed
`last_updated` — the shallow `.copy()` let the mutation through. -/
theorem update_failed_call_mutates_in_memory_metadata :
    (update_context_rules c2store "git" [("description", JVal.num 5)]
        "T1" "TS" false false).1.success = false ∧
    (update_context_rules c2store "git" [("description", JVal.num 5)]
        "T1" "TS" false false).1.error = some "Updated context data validation failed" ∧
    hasKey (heapGet c2store.heap 0) "last_updated" = false ∧
    hasKey (heapGet (update_context_rules c2store "git" [("description", JVal.num 5)]
        "T1" "TS" false false).2.heap 0) "last_updated" = true ∧
    (alookup (update_context_rules c2store "git" [("description", JVal.num 5)]
        "T1" "TS" false false).2.contexts "git").map Doc.meta = some (some 0) :=
  ⟨rfl, rfl, rfl, rfl, rfl⟩

/-- Store for the C3 counterexample: context `c` was loaded from disk with
no `description`, so it fails validation as it stands. -/
def c3store : Store := ⟨[("c", ⟨[("tool_category", .str "c")], none⟩)], [], 0, []⟩

/-- The document `add_context_pattern` writes in the C3 counterexample. -/
def c3written : DocV :=
  [("tool_category", .str "c"),
   ("auto_store_triggers", .dict [("p1", .dict [("pattern", .str "x")])]),
   ("metadata", .dict [("last_updated", .str "T1")])]

/-- C3 counterexample: `add_context_pattern` happily reports success and
writes a document that fails the Validator (missing `description`) — it
never runs `_validate_context_data`. -/
theorem add_pattern_writes_invalid_document_cex :
    (add_context_pattern c3store "c" "auto_store_triggers" "p1"
        (.dict [("pattern", .str "x")]) "T1" "TS" true true).1.success = true ∧
    alookup (add_context_pattern c3store "c" "auto_store_triggers" "p1"
        (.dict [("pattern", .str "x")]) "T1" "TS" true true).2.disk
      "c_context.json" = some c3written ∧
    (validate_context_data c3written).1 = ["Missing required field: description"] :=
  ⟨rfl, rfl, by decide⟩

/-- Store for the C5 counterexample: context `git` with
`optimization_count = 5` in its metadata (heap cell 0). -/
def c5store : Store :=
  ⟨[("git", ⟨[("tool_category", .str "git"), ("description", .str "d")], some 0⟩)],
   [(0, [("optimization_count", .num 5)])], 1, []⟩

/-- C5 counterexample: a successful `update_context_rules` whose
`updates.metadata` carries `optimization_count = 0` deep-merges that value
over the stored 5 — the counter decreases from 5 to 0. -/
theorem update_can_decrease_optimization_count_cex :
    (update_context_rules c5store "git"
        [("metadata", .dict [("optimization_count", .num 0)])]
        "T1" "TS" true true).1.success = true ∧
    alookup (heapGet c5store.heap 0) "optimization_count" = some (JVal.num 5) ∧
    alookup (heapGet (update_context_rules c5store "git"
        [("metadata", .dict [("optimization_count", .num 0)])]
        "T1" "TS" true true).2.heap 0) "optimization_count" = some (JVal.num 0) ∧
    (alookup (update_context_rules c5store "git"
        [("metadata", .dict [("optimization_count", .num 0)])]
        "T1" "TS" true true).2.contexts "git").map Doc.meta = some (some 0) :=
  ⟨rfl, rfl, rfl, rfl⟩

/-- Directory for the C6 counterexample: the document `docker` is
persisted under the fallback filename `docker.json`. -/
def c6disk : List (String × DocV) :=
  [("docker.json", [("tool_category", .str "docker"), ("description", .str "Docker rules")])]

/-- The store after loading that directory. -/
def c6store : Store := load_all_contexts c6disk true

/-- C6 counterexample: `docker` is loaded into the store from
`docker.json`, yet `create_context_file("docker", ...)` succeeds (the
existence check only looks for `docker_context.json`) and creates a second
file for the same name. -/
theorem create_succeeds_despite_plain_json_cex :
    hasKey c6store.contexts "docker" = true ∧
    hasKey c6store.disk "docker.json" = true ∧
    (create_context_file c6store "docker" "tools" [] "T1" true).1.success = true ∧
    hasKey (create_context_file c6store "docker" "tools" [] "T1" true).2.disk
      "docker_context.json" = true :=
  ⟨rfl, rfl, rfl, rfl⟩

/-- C9 counterexample: with no `description` in `rules` the store does
supply the default description, but the resulting document can still fail
validation — here because `rules` carries a non-dict `syntax_rules` — so
the create call fails (though not for a missing description). -/
theorem create_default_description_validation_cex :
    hasKey [("syntax_rules", JVal.num 3)] "description" = false ∧
    alookup (assembleContextData "web" [("syntax_rules", JVal.num 3)] "T1")
      "description" = some (JVal.str "Dynamically created context for web") ∧
    (create_context_file ⟨[], [], 0, []⟩ "web" "web"
        [("syntax_rules", JVal.num 3)] "T1" true).1.success = false ∧
    (create_context_file ⟨[], [], 0, []⟩ "web" "web"
        [("syntax_rules", JVal.num 3)] "T1" true).1.validation_errors =
      ["syntax_rules must be a dictionary"] :=
  ⟨rfl, rfl, rfl, by decide⟩

/-- C1: when the shallow-merged document fails validation,
`update_context_rules` returns a failure result carrying the validation
errors and the backup reference, and the on-disk context file is exactly
its pre-call content (the write is never reached; only the `backups/` copy
may have been added). -/
theorem update_validation_failure_preserves_disk
    (st : Store) (name : String) (doc : Doc) (updates fields1 meta1 : DocV)
    (now ts : String) (backupOk writeOk : Bool)
    (hname : validate_context_name name = true)
    (hdoc : alookup st.contexts name = some doc)
    (hraw : hasKey doc.fields "metadata" = false)
    (hmerge : mergeUpdatesVal doc.fields (doc.meta.map (heapGet st.heap)) updates now
        = some (fields1, meta1))
    (hval : (validate_context_data (fields1 ++ [("metadata", JVal.dict meta1)])).1 ≠ []) :
    (update_context_rules st name updates now ts backupOk writeOk).1.success = false ∧
    (update_context_rules st name updates now ts backupOk writeOk).1.error =
      some "Updated context data validation failed" ∧
    (update_context_rules st name updates now ts backupOk writeOk).1.validation_errors =
      (validate_context_data (fields1 ++ [("metadata", JVal.dict meta1)])).1 ∧
    (update_context_rules st name updates now ts backupOk writeOk).1.backup_file =
      (backup_context_file st name ts backupOk).1 ∧
    alookup (update_context_rules st name updates now ts backupOk writeOk).2.disk
      (ctxPath name) = alookup st.disk (ctxPath name) := by
  have hd := backup_preserves_ctx_file st name ts backupOk hname
  unfold update_context_rules
  simp only [hname, hdoc, hraw]
  rw [backup_preserves_heap]
  rw [hmerge]
  cases hm : doc.meta with
  | some r =>
      simp only [hm]
      rw [if_pos hval]
      exact ⟨rfl, rfl, rfl, rfl, hd⟩
  | none =>
      simp only [hm]
      rw [if_pos hval]
      exact ⟨rfl, rfl, rfl, rfl, hd⟩

/-- Store for the C1 witness: context `git` with its file on disk. -/
def c1store : Store :=
  ⟨[("git", ⟨[("tool_category", .str "git"), ("description", .str "ok")], none⟩)],
   [], 0, [("git_context.json", [("tool_category", .str "git"), ("description", .str "ok")])]⟩

/-- C1 witness: the theorem at a concrete store and a concrete bad update
(`description` set to a number). -/
theorem update_validation_failure_preserves_disk_witness :
    (update_context_rules c1store "git" [("description", JVal.num 7)]
        "T1" "TS" true true).1.success = false ∧
    (update_context_rules c1store "git" [("description", JVal.num 7)]
        "T1" "TS" true true).1.error = some "Updated context data validation failed" ∧
    (update_context_rules c1store "git" [("description", JVal.num 7)]
        "T1" "TS" true true).1.validation_errors =
      (validate_context_data
        ([("tool_category", .str "git"), ("description", JVal.num 7)] ++
          [("metadata", JVal.dict [("last_updated", .str "T1")])])).1 ∧
    (update_context_rules c1store "git" [("description", JVal.num 7)]
        "T1" "TS" true true).1.backup_file =
      (backup_context_file c1store "git" "TS" true).1 ∧
    alookup (update_context_rules c1store "git" [("description", JVal.num 7)]
        "T1" "TS" true true).2.disk (ctxPath "git") =
      alookup c1store.disk (ctxPath "git") :=
  update_validation_failure_preserves_disk c1store "git"
    ⟨[("tool_category", .str "git"), ("description", .str "ok")], none⟩
    [("description", JVal.num 7)]
    [("tool_category", .str "git"), ("description", JVal.num 7)]
    [("last_updated", .str "T1")]
    "T1" "TS" true true (by decide) rfl rfl rfl (by decide)

theorem heapGet_aset_self (heap : Heap) (r : Nat) (m : DocV) :
    heapGet (aset heap r m) r = m := by
  unfold heapGet
  rw [alookup_aset_self]
  rfl

theorem heapGet_aset_ne (heap : Heap) (r r2 : Nat) (m : DocV) (h : r ≠ r2) :
    heapGet (aset heap r m) r2 = heapGet heap r2 := by
  unfold heapGet
  rw [alookup_aset_ne _ _ _ _ h]

/-- C3 amended: `create_context_file` and `update_context_rules` validate
the newly computed document before writing and never touch the context
file when validation fails; `add_context_pattern`, by contrast, performs
no document validation — whenever its inputs pass the name/section checks
and the write succeeds, it reports success and writes the new document
as-is (the C3 counterexample shows that document can fail validation). -/
theorem mutating_ops_validation_amended :
    (∀ (st : Store) (name category : String) (rules : DocV) (now : String) (writeOk : Bool),
        validate_context_name name = true →
        validate_context_name category = true →
        hasKey st.disk (ctxPath name) = false →
        (validate_context_data (assembleContextData category rules now)).1 ≠ [] →
        (create_context_file st name category rules now writeOk).1.success = false ∧
        (create_context_file st name category rules now writeOk).2 = st) ∧
    (∀ (st : Store) (name : String) (doc : Doc) (updates fields1 meta1 : DocV)
        (now ts : String) (backupOk writeOk : Bool),
        validate_context_name name = true →
        alookup st.contexts name = some doc →
        hasKey doc.fields "metadata" = false →
        mergeUpdatesVal doc.fields (doc.meta.map (heapGet st.heap)) updates now
          = some (fields1, meta1) →
        (validate_context_data (fields1 ++ [("metadata", JVal.dict meta1)])).1 ≠ [] →
        (update_context_rules st name updates now ts backupOk writeOk).1.success = false ∧
        alookup (update_context_rules st name updates now ts backupOk writeOk).2.disk
          (ctxPath name) = alookup st.disk (ctxPath name)) ∧
    (∀ (st : Store) (name psec pname : String) (cfg : JVal) (d : DocV) (doc : Doc)
        (now ts : String) (backupOk : Bool),
        validate_context_name name = true →
        alookup st.contexts name = some doc →
        psec ∈ ["auto_store_triggers", "auto_retrieve_triggers"] →
        (alookup doc.fields psec).getD (.dict []) = .dict d →
        hasKey doc.fields "metadata" = false →
        (add_context_pattern st name psec pname cfg now ts backupOk true).1.success = true ∧
        alookup (add_context_pattern st name psec pname cfg now ts backupOk true).2.disk
          (ctxPath name) =
          some (aset doc.fields psec (.dict (aset d pname cfg)) ++
            [("metadata", JVal.dict
              (match doc.meta with
               | some r => aset (heapGet st.heap r) "last_updated" (.str now)
               | none => [("last_updated", .str now)]))])) := by
  refine ⟨?_, ?_, ?_⟩
  · intro st name category rules now writeOk hname hcat hdisk hval
    unfold create_context_file
    simp only [hname, hcat, hdisk]
    rw [if_pos hval]
    exact ⟨rfl, rfl⟩
  · intro st name doc updates fields1 meta1 now ts backupOk writeOk
      hname hdoc hraw hmerge hval
    have hd := backup_preserves_ctx_file st name ts backupOk hname
    unfold update_context_rules
    simp only [hname, hdoc, hraw]
    rw [backup_preserves_heap]
    rw [hmerge]
    cases hm : doc.meta with
    | some r =>
        simp only [hm]
        rw [if_pos hval]
        exact ⟨rfl, hd⟩
    | none =>
        simp only [hm]
        rw [if_pos hval]
        exact ⟨rfl, hd⟩
  · intro st name psec pname cfg d doc now ts backupOk hname hdoc hsec hsecval hraw
    have hnot : ¬ (psec ∉ ["auto_store_triggers", "auto_retrieve_triggers"]) :=
      fun hc => hc hsec
    unfold add_context_pattern
    simp only [hname, hdoc, hraw]
    rw [if_neg hnot, hsecval]
    simp only [backup_preserves_heap, allocMeta]
    cases hm : doc.meta with
    | some r =>
        simp only [hm]
        refine ⟨rfl, ?_⟩
        rw [heapGet_aset_self]
        exact alookup_aset_self _ _ _
    | none =>
        simp only [hm]
        refine ⟨rfl, ?_⟩
        rw [heapGet_aset_self]
        exact alookup_aset_self _ _ _

/-- C3 witness: the three parts of the amended statement at concrete
inputs (an invalid create, an invalid update, and an add_pattern on an
unvalidated document). -/
theorem mutating_ops_validation_amended_witness :
    ((create_context_file ⟨[], [], 0, []⟩ "web" "web"
        [("syntax_rules", JVal.num 3)] "T1" true).1.success = false ∧
     (create_context_file ⟨[], [], 0, []⟩ "web" "web"
        [("syntax_rules", JVal.num 3)] "T1" true).2 = ⟨[], [], 0, []⟩) ∧
    ((update_context_rules c1store "git" [("description", JVal.num 7)]
        "T1" "TS" true true).1.success = false ∧
     alookup (update_context_rules c1store "git" [("description", JVal.num 7)]
        "T1" "TS" true true).2.disk (ctxPath "git") =
       alookup c1store.disk (ctxPath "git")) ∧
    ((add_context_pattern c3store "c" "auto_store_triggers" "p1"
        (.dict [("pattern", .str "x")]) "T1" "TS" true true).1.success = true ∧
     alookup (add_context_pattern c3store "c" "auto_store_triggers" "p1"
        (.dict [("pattern", .str "x")]) "T1" "TS" true true).2.disk
       (ctxPath "c") = some c3written) :=
  ⟨mutating_ops_validation_amended.1 ⟨[], [], 0, []⟩ "web" "web"
      [("syntax_rules", JVal.num 3)] "T1" true (by decide) (by decide) rfl (by decide),
   mutating_ops_validation_amended.2.1 c1store "git"
      ⟨[("tool_category", .str "git"), ("description", .str "ok")], none⟩
      [("description", JVal.num 7)]
      [("tool_category", .str "git"), ("description", JVal.num 7)]
      [("last_updated", .str "T1")]
      "T1" "TS" true true (by decide) rfl rfl rfl (by decide),
   mutating_ops_validation_amended.2.2 c3store "c" "auto_store_triggers" "p1"
      (.dict [("pattern", .str "x")]) [] ⟨[("tool_category", .str "c")], none⟩
      "T1" "TS" true (by decide) rfl (by decide) rfl rfl⟩

/-- Core success lemma for `create_context_file`: valid inputs, no
`<name>_context.json` on disk and a validating document give success,
whatever the in-memory map holds. -/
theorem create_success_core (st : Store) (name category : String) (rules : DocV)
    (now : String)
    (hname : validate_context_name name = true)
    (hcat : validate_context_name category = true)
    (hdisk : hasKey st.disk (ctxPath name) = false)
    (hval : (validate_context_data (assembleContextData category rules now)).1 = []) :
    (create_context_file st name category rules now true).1.success = true := by
  have hnotv : ¬ ((validate_context_data (assembleContextData category rules now)).1 ≠ []) :=
    fun hc => hc hval
  unfold create_context_file
  simp only [hname, hcat, hdisk]
  rw [if_neg hnotv]
  rfl

/-- C6 amended: `create_context_file` fails (with the existing-file
reference, changing nothing) exactly when `<name>_context.json` exists on
disk; a document persisted under the fallback name `<name>.json` — even
one loaded into the store — does not block creation: with the preferred
file absent, valid inputs and a validating document, creation succeeds
regardless of the in-memory map (no hypothesis constrains
`st.contexts`). -/
theorem create_exists_check_amended :
    (∀ (st : Store) (name category : String) (rules : DocV) (now : String) (writeOk : Bool),
        validate_context_name name = true →
        validate_context_name category = true →
        hasKey st.disk (ctxPath name) = true →
        (create_context_file st name category rules now writeOk).1.success = false ∧
        (create_context_file st name category rules now writeOk).1.existing_file =
          some (ctxPath name) ∧
        (create_context_file st name category rules now writeOk).2 = st) ∧
    (∀ (st : Store) (name category : String) (rules : DocV) (now : String),
        validate_context_name name = true →
        validate_context_name category = true →
        hasKey st.disk (ctxPath name) = false →
        (validate_context_data (assembleContextData category rules now)).1 = [] →
        (create_context_file st name category rules now true).1.success = true) := by
  constructor
  · intro st name category rules now writeOk hname hcat hdisk
    unfold create_context_file
    simp only [hname, hcat, hdisk]
    exact ⟨rfl, rfl, rfl⟩
  · intro st name category rules now hname hcat hdisk hval
    exact create_success_core st name category rules now hname hcat hdisk hval

/-- C6 witness: blocking on an existing `a_context.json`, and successful
creation of `docker` while `docker` is already loaded from `docker.json`. -/
theorem create_exists_check_amended_witness :
    ((create_context_file ⟨[], [], 0, [("a_context.json", [])]⟩ "a" "b" [] "T1" true).1.success = false ∧
     (create_context_file ⟨[], [], 0, [("a_context.json", [])]⟩ "a" "b" [] "T1" true).1.existing_file =
       some (ctxPath "a") ∧
     (create_context_file ⟨[], [], 0, [("a_context.json", [])]⟩ "a" "b" [] "T1" true).2 =
       ⟨[], [], 0, [("a_context.json", [])]⟩) ∧
    (create_context_file c6store "docker" "tools" [] "T1" true).1.success = true :=
  ⟨create_exists_check_amended.1 ⟨[], [], 0, [("a_context.json", [])]⟩ "a" "b" [] "T1" true
      (by decide) (by decide) rfl,
   create_exists_check_amended.2 c6store "docker" "tools" [] "T1"
      (by decide) (by decide) rfl (by decide)⟩

theorem alookup_none_of_hasKey_false {κ : Type} [DecidableEq κ] {α : Type}
    (l : List (κ × α)) (k : κ) (h : hasKey l k = false) : alookup l k = none := by
  unfold hasKey at h
  cases hv : alookup l k with
  | none => rfl
  | some v => rw [hv] at h; simp at h

theorem alookup_assemble_sections (category : String) (rules : DocV) (now : String)
    (sec : String)
    (hsec : sec ∈ ["syntax_rules", "preferences", "auto_corrections",
      "session_initialization"]) :
    alookup (assembleContextData category rules now) sec = alookup rules sec := by
  have hfm := alookup_filterMap_mem rules
    ["syntax_rules", "preferences", "auto_corrections", "session_initialization"]
    sec (by decide) hsec
  simp only [assembleContextData]
  rw [alookup_append, alookup_append, hfm]
  have hbase : alookup [("tool_category", JVal.str category),
      ("auto_convert", (alookup rules "auto_convert").getD (JVal.bool false)),
      ("description", (alookup rules "description").getD
        (JVal.str ("Dynamically created context for " ++ category)))] sec = none := by
    fin_cases hsec <;> rfl
  rw [hbase]
  cases hr : alookup rules sec with
  | some v => rfl
  | none => fin_cases hsec <;> rfl

theorem alookup_assemble_tc (category : String) (rules : DocV) (now : String) :
    alookup (assembleContextData category rules now) "tool_category" =
      some (.str category) := by
  simp [assembleContextData, alookup_append, alookup]

theorem alookup_assemble_desc (category : String) (rules : DocV) (now : String)
    (h : hasKey rules "description" = false) :
    alookup (assembleContextData category rules now) "description" =
      some (.str ("Dynamically created context for " ++ category)) := by
  have hn := alookup_none_of_hasKey_false rules "description" h
  simp [assembleContextData, alookup_append, alookup, hn]

theorem alookup_assemble_metadata (category : String) (rules : DocV) (now : String) :
    alookup (assembleContextData category rules now) "metadata" =
      some (JVal.dict [("version", .str "1.0.0"), ("last_updated", .str now),
        ("created_by", .str "dynamic_context_management"),
        ("applies_to_tools", (alookup rules "applies_to_tools").getD
          (.list [.str (category ++ ":*")])),
        ("priority", (alookup rules "priority").getD (.str "medium"))]) := by
  have hfm := alookup_filterMap_not_mem rules ["syntax_rules", "preferences",
    "auto_corrections", "session_initialization"] "metadata" (by decide)
  simp [assembleContextData, alookup_append, alookup, hfm]

/-- With a valid category and no caller-supplied description, the only
possible validation errors of the assembled document are the optional
section type checks, applied to the caller's `rules`. -/
theorem validate_assemble_errors (category : String) (rules : DocV) (now : String)
    (hcat : validate_context_name category = true)
    (hdesc : hasKey rules "description" = false) :
    (validate_context_data (assembleContextData category rules now)).1 =
    (["syntax_rules", "preferences", "auto_corrections",
      "session_initialization"].map (secCheck rules)).flatten := by
  have htc := alookup_assemble_tc category rules now
  have hde := alookup_assemble_desc category rules now hdesc
  have hmd := alookup_assemble_metadata category rules now
  have hsc : ∀ sec ∈ ["syntax_rules", "preferences", "auto_corrections",
      "session_initialization"],
      secCheck (assembleContextData category rules now) sec = secCheck rules sec := by
    intro sec hsec
    unfold secCheck
    rw [alookup_assemble_sections category rules now sec hsec]
  have hs1 := hsc "syntax_rules" (by decide)
  have hs2 := hsc "preferences" (by decide)
  have hs3 := hsc "auto_corrections" (by decide)
  have hs4 := hsc "session_initialization" (by decide)
  simp [validate_context_data, hasKey, htc, hde, hmd, hs1, hs2, hs3, hs4, hcat]

/-- C9 amended: with valid name and category and no `description` key in
`rules`, the store supplies the default description
`Dynamically created context for <category>` and the operation never fails
for a missing or mistyped description; the assembled document passes
validation (and create succeeds) whenever every optional section the
caller did supply is a dict — a non-dict section still fails validation,
as the C9 counterexample shows. -/
theorem create_default_description_amended :
    (∀ (category : String) (rules : DocV) (now : String),
        hasKey rules "description" = false →
        alookup (assembleContextData category rules now) "description" =
          some (.str ("Dynamically created context for " ++ category))) ∧
    (∀ (category : String) (rules : DocV) (now : String),
        validate_context_name category = true →
        hasKey rules "description" = false →
        "Missing required field: description" ∉
          (validate_context_data (assembleContextData category rules now)).1 ∧
        "description must be a string" ∉
          (validate_context_data (assembleContextData category rules now)).1) ∧
    (∀ (st : Store) (name category : String) (rules : DocV) (now : String),
        validate_context_name name = true →
        validate_context_name category = true →
        hasKey rules "description" = false →
        hasKey st.disk (ctxPath name) = false →
        (∀ sec ∈ ["syntax_rules", "preferences", "auto_corrections",
            "session_initialization"], ∀ v, alookup rules sec = some v →
            ∃ d, v = JVal.dict d) →
        (validate_context_data (assembleContextData category rules now)).1 = [] ∧
        (create_context_file st name category rules now true).1.success = true) := by
  have hnil : ∀ (rules : DocV),
      (∀ sec ∈ ["syntax_rules", "preferences", "auto_corrections",
          "session_initialization"], ∀ v, alookup rules sec = some v →
          ∃ d, v = JVal.dict d) →
      ∀ sec ∈ ["syntax_rules", "preferences", "auto_corrections",
          "session_initialization"], secCheck rules sec = [] := by
    intro rules hsecs sec hsec
    unfold secCheck
    cases hv : alookup rules sec with
    | none => rfl
    | some v =>
        rcases hsecs sec hsec v hv with ⟨d, rfl⟩
        rfl
  refine ⟨?_, ?_, ?_⟩
  · intro category rules now hdesc
    exact alookup_assemble_desc category rules now hdesc
  · intro category rules now hcat hdesc
    rw [validate_assemble_errors category rules now hcat hdesc]
    constructor
    · intro hmem
      rcases List.mem_flatten.mp hmem with ⟨l, hl, hxl⟩
      rcases List.mem_map.mp hl with ⟨sec, hsecmem, rfl⟩
      unfold secCheck at hxl
      rcases hv : alookup rules sec with _ | v
      · rw [hv] at hxl; simp at hxl
      · rw [hv] at hxl
        cases v <;> simp at hxl <;> fin_cases hsecmem <;> simp at hxl
    · intro hmem
      rcases List.mem_flatten.mp hmem with ⟨l, hl, hxl⟩
      rcases List.mem_map.mp hl with ⟨sec, hsecmem, rfl⟩
      unfold secCheck at hxl
      rcases hv : alookup rules sec with _ | v
      · rw [hv] at hxl; simp at hxl
      · rw [hv] at hxl
        cases v <;> simp at hxl <;> fin_cases hsecmem <;> simp at hxl
  · intro st name category rules now hname hcat hdesc hdisk hsecs
    have herr : (validate_context_data (assembleContextData category rules now)).1 = [] := by
      rw [validate_assemble_errors category rules now hcat hdesc]
      have h1 := hnil rules hsecs "syntax_rules" (by decide)
      have h2 := hnil rules hsecs "preferences" (by decide)
      have h3 := hnil rules hsecs "auto_corrections" (by decide)
      have h4 := hnil rules hsecs "session_initialization" (by decide)
      simp [h1, h2, h3, h4]
    exact ⟨herr, create_success_core st name category rules now
      hname hcat hdisk herr⟩

/-- C9 witness: the amended statement at category `web` with empty rules. -/
theorem create_default_description_amended_witness :
    alookup (assembleContextData "web" [] "T1") "description" =
      some (.str ("Dynamically created context for " ++ "web")) ∧
    ("Missing required field: description" ∉
      (validate_context_data (assembleContextData "web" [] "T1")).1 ∧
     "description must be a string" ∉
      (validate_context_data (assembleContextData "web" [] "T1")).1) ∧
    ((validate_context_data (assembleContextData "web" [] "T1")).1 = [] ∧
     (create_context_file ⟨[], [], 0, []⟩ "web2" "web" [] "T1" true).1.success = true) :=
  ⟨create_default_description_amended.1 "web" [] "T1" rfl,
   create_default_description_amended.2.1 "web" [] "T1" (by decide) rfl,
   create_default_description_amended.2.2 ⟨[], [], 0, []⟩ "web2" "web" [] "T1"
     (by decide) (by decide) rfl rfl
     (by intro sec hsec v hv; simp [alookup] at hv)⟩

/-- C8 (code bug): `execute_session_initialization` NEVER returns a status
record: either the context loop raises, or — on every path that reaches
the learning hook — `learn_from_session_patterns` succeeds (the session
was just marked initialized and the memory service reports available), and
the subsequent read of `learning_result['insights']` raises KeyError,
because the learning result only carries `insights_gained`. -/
theorem execute_session_initialization_always_raises :
    ∀ (st : Store) (now : String) (execTime : Int) (memId : String),
      ∃ e : String,
        execute_session_initialization st now execTime memId = .error e := by
  intro st now et mid
  unfold execute_session_initialization
  cases hL : sessionInitLoop st.contexts
      ⟨false, some now, [], [], [], none, [], none⟩ [] now mid with
  | error e => exact ⟨e, rfl⟩
  | ok si => exact ⟨"KeyError: insights", rfl⟩

/-- The `metadata.optimization_count` value of a stored document (read
through the shared metadata cell; absent name, metadata or key give
`none`). -/
def getOptCount (st : Store) (name : String) : Option JVal :=
  match alookup st.contexts name with
  | some d =>
      match d.meta with
      | some r => alookup (heapGet st.heap r) "optimization_count"
      | none => none
  | none => none

theorem getOptCount_backup (st : Store) (name name2 ts : String) (ok : Bool) :
    getOptCount (backup_context_file st name2 ts ok).2 name = getOptCount st name := by
  unfold getOptCount
  rw [backup_preserves_contexts, backup_preserves_heap]

theorem heap_patch_patterns_count (heap : Heap) (R r : Nat) (v : JVal) :
    alookup (heapGet (aset heap R (aset (heapGet heap R) "patterns" v)) r)
        "optimization_count" =
      alookup (heapGet heap r) "optimization_count" := by
  by_cases hR : R = r
  · subst hR
    rw [heapGet_aset_self, alookup_aset_ne _ _ _ _ (by decide)]
  · rw [heapGet_aset_ne _ _ _ _ hR]

/-- One pattern-improvement entry never touches any metadata cell's
`optimization_count` (it only patches `patterns` keys). -/
theorem patImpStep_count (metaRef : Option Nat) (sec : String) (nps : JVal)
    (fields : DocV) (heap : Heap) (f2 : DocV) (h2 : Heap) (m2 : Option String)
    (r : Nat) (h : patImpStep metaRef sec nps fields heap = some (f2, h2, m2)) :
    alookup (heapGet h2 r) "optimization_count" =
      alookup (heapGet heap r) "optimization_count" := by
  unfold patImpStep at h
  repeat' split at h
  all_goals (try cases h)
  all_goals first
    | rfl
    | exact heap_patch_patterns_count heap (metaRef.getD 0) r _

/-- The pattern-improvement loop never touches any metadata cell's
`optimization_count`. -/
theorem patImpLoop_count (metaRef : Option Nat) (pd : List (String × JVal)) :
    ∀ (fields : DocV) (heap : Heap) (applied : List String) (r : Nat),
    alookup (heapGet (patImpLoop metaRef pd fields heap applied).2.1 r)
        "optimization_count" =
      alookup (heapGet heap r) "optimization_count" := by
  induction pd with
  | nil => intro fields heap applied r; rfl
  | cons hd rest ih =>
      intro fields heap applied r
      rcases hd with ⟨sec, nps⟩
      unfold patImpLoop
      cases hstep : patImpStep metaRef sec nps fields heap with
      | none => rfl
      | some res =>
          rcases res with ⟨f2, h2, m2⟩
          exact (ih f2 h2 (applied ++ m2.toList) r).trans
            (patImpStep_count metaRef sec nps fields heap f2 h2 m2 r hstep)

/-- The whole optimization dispatch never touches any metadata cell's
`optimization_count`. -/
theorem applyOptimizations_count (fields : DocV) (metaRef : Option Nat)
    (heap : Heap) (optdata : DocV) (r : Nat) :
    alookup (heapGet (applyOptimizations fields metaRef heap optdata).2.1 r)
        "optimization_count" =
      alookup (heapGet heap r) "optimization_count" := by
  unfold applyOptimizations
  dsimp only
  repeat' split
  all_goals first
    | rfl
    | exact patImpLoop_count _ _ _ _ _ _

/-- Lemma: `add_context_pattern` never changes `metadata.optimization_count` of
the target document, on any path (it only refreshes `last_updated`). -/
theorem addPattern_count (st : Store) (name psec pname : String) (cfg : JVal)
    (now ts : String) (bOk wOk : Bool) :
    getOptCount (add_context_pattern st name psec pname cfg now ts bOk wOk).2 name =
      getOptCount st name := by
  cases hname : validate_context_name name with
  | false => simp [add_context_pattern, hname]
  | true =>
      cases hdoc : alookup st.contexts name with
      | none => simp [add_context_pattern, hname, hdoc]
      | some doc =>
          by_cases hsec : psec ∈ ["auto_store_triggers", "auto_retrieve_triggers"]
          · cases hsv : (alookup doc.fields psec).getD (.dict []) with
            | dict d =>
                cases hraw : hasKey doc.fields "metadata" with
                | true =>
                    simp [add_context_pattern, hname, hdoc, hsec, hsv, hraw,
                          getOptCount_backup]
                | false =>
                    cases hm : doc.meta with
                    | some r =>
                        cases wOk <;>
                          simp [add_context_pattern, hname, hdoc, hsec, hsv, hraw, hm,
                                getOptCount, backup_preserves_contexts,
                                backup_preserves_heap, alookup_aset_self,
                                heapGet_aset_self, alookup_aset_ne]
                    | none =>
                        cases wOk <;>
                          simp [add_context_pattern, hname, hdoc, hsec, hsv, hraw, hm,
                                getOptCount, allocMeta, backup_preserves_contexts,
                                backup_preserves_heap, alookup_aset_self,
                                heapGet_aset_self, alookup]
            | null =>
                simp [add_context_pattern, hname, hdoc, hsec, hsv, getOptCount_backup]
            | bool b =>
                simp [add_context_pattern, hname, hdoc, hsec, hsv, getOptCount_backup]
            | num n =>
                simp [add_context_pattern, hname, hdoc, hsec, hsv, getOptCount_backup]
            | str s =>
                simp [add_context_pattern, hname, hdoc, hsec, hsv, getOptCount_backup]
            | list l =>
                simp [add_context_pattern, hname, hdoc, hsec, hsv, getOptCount_backup]
          · simp [add_context_pattern, hname, hdoc, hsec]

/-- The update merge leaves `optimization_count` untouched whenever the
caller's metadata updates (if any) do not carry that key. -/
theorem mergeUpdatesVal_count (updates : DocV) :
    ∀ (fields : DocV) (metaVal : Option DocV) (fields1 meta1 : DocV) (now : String),
    mergeUpdatesVal fields metaVal updates now = some (fields1, meta1) →
    (∀ p ∈ updates, ∀ d, p.2 = JVal.dict d → p.1 = "metadata" →
        hasKey d "optimization_count" = false) →
    alookup meta1 "optimization_count" =
      alookup (metaVal.getD []) "optimization_count" := by
  induction updates with
  | nil =>
      intro fields metaVal fields1 meta1 now hm _
      unfold mergeUpdatesVal at hm
      injection hm with h1
      have h2 : aset (metaVal.getD []) "last_updated" (.str now) = meta1 :=
        congrArg Prod.snd h1
      rw [← h2]
      exact alookup_aset_ne _ _ _ _ (by decide)
  | cons p rest ih =>
      intro fields metaVal fields1 meta1 now hm hup
      rcases p with ⟨k, v⟩
      unfold mergeUpdatesVal at hm
      by_cases hk : k = "metadata"
      · rw [if_pos hk] at hm
        cases v with
        | dict dd =>
            have hrest : ∀ p ∈ rest, ∀ d, p.2 = JVal.dict d → p.1 = "metadata" →
                hasKey d "optimization_count" = false :=
              fun q hq => hup q (List.mem_cons_of_mem _ hq)
            have hrec := ih fields
              (some (aset (dictMerge (metaVal.getD []) dd) "last_updated" (.str now)))
              fields1 meta1 now hm hrest
            rw [hrec]
            show alookup (aset (dictMerge (metaVal.getD []) dd)
              "last_updated" (.str now)) "optimization_count" = _
            rw [alookup_aset_ne _ _ _ _ (by decide)]
            exact dictMerge_lookup_notin _ _ _
              (hup (k, .dict dd) (List.mem_cons_self _ _) dd rfl hk)
        | null => cases hm
        | bool b => cases hm
        | num n => cases hm
        | str s => cases hm
        | list l => cases hm
      · rw [if_neg hk] at hm
        exact ih (aset fields k v) metaVal fields1 meta1 now hm
          (fun q hq => hup q (List.mem_cons_of_mem _ hq))

/-- Lemma: `update_context_rules` leaves `optimization_count` untouched on every
path, as long as the caller's metadata updates do not carry that key. -/
theorem updateRules_count (st : Store) (name : String) (updates : DocV)
    (now ts : String) (bOk wOk : Bool)
    (hup : ∀ p ∈ updates, ∀ d, p.2 = JVal.dict d → p.1 = "metadata" →
        hasKey d "optimization_count" = false) :
    getOptCount (update_context_rules st name updates now ts bOk wOk).2 name =
      getOptCount st name := by
  cases hname : validate_context_name name with
  | false => simp [update_context_rules, hname]
  | true =>
      cases hdoc : alookup st.contexts name with
      | none => simp [update_context_rules, hname, hdoc]
      | some doc =>
          cases hraw : hasKey doc.fields "metadata" with
          | true =>
              simp [update_context_rules, hname, hdoc, hraw, getOptCount_backup]
          | false =>
              cases hm : mergeUpdatesVal doc.fields
                  (doc.meta.map (heapGet st.heap)) updates now with
              | none =>
                  simp [update_context_rules, hname, hdoc, hraw,
                        backup_preserves_heap, hm, getOptCount_backup]
              | some fm =>
                  rcases fm with ⟨fields1, meta1⟩
                  have hcount := mergeUpdatesVal_count updates doc.fields
                    (doc.meta.map (heapGet st.heap)) fields1 meta1 now hm hup
                  cases hmeta : doc.meta with
                  | some r =>
                      have hm2 : mergeUpdatesVal doc.fields (some (heapGet st.heap r))
                          updates now = some (fields1, meta1) := by
                        rw [hmeta] at hm
                        exact hm
                      have hc2 : alookup meta1 "optimization_count" =
                          alookup (heapGet st.heap r) "optimization_count" := by
                        rw [hcount, hmeta]
                        rfl
                      cases wOk <;>
                        by_cases hval : (validate_context_data
                            (fields1 ++ [("metadata", JVal.dict meta1)])).1 = [] <;>
                        simp [update_context_rules, hname, hdoc, hraw, hm2, hmeta, hval,
                              backup_preserves_heap, backup_preserves_contexts,
                              getOptCount, alookup_aset_self, heapGet_aset_self, hc2]
                  | none =>
                      have hm2 : mergeUpdatesVal doc.fields none
                          updates now = some (fields1, meta1) := by
                        rw [hmeta] at hm
                        exact hm
                      have hc2 : alookup meta1 "optimization_count" = none := by
                        rw [hcount, hmeta]
                        rfl
                      cases wOk <;>
                        by_cases hval : (validate_context_data
                            (fields1 ++ [("metadata", JVal.dict meta1)])).1 = [] <;>
                        simp [update_context_rules, hname, hdoc, hraw, hm2, hmeta, hval,
                              backup_preserves_heap, backup_preserves_contexts,
                              getOptCount, allocMeta, alookup_aset_self,
                              heapGet_aset_self, hc2]

/-- Each successful `auto_optimize_context` increments
`metadata.optimization_count` by exactly one (a missing counter counts as
zero). -/
theorem optimize_success_count (st : Store) (name : String) (optdata : DocV)
    (now ts : String) (bOk wOk : Bool)
    (hsucc : (auto_optimize_context st name optdata now ts bOk wOk).1.success = true) :
    getOptCount (auto_optimize_context st name optdata now ts bOk wOk).2 name =
      some (.num ((match getOptCount st name with
        | some (.num n) => n
        | _ => 0) + 1)) := by
  cases hdoc : alookup st.contexts name with
  | none =>
      rw [auto_optimize_context] at hsucc
      simp only [hdoc] at hsucc
      simp [OpResult.base] at hsucc
  | some doc =>
      rcases hdk : applyOptimizations doc.fields doc.meta st.heap optdata with
        ⟨fields1, heap1, applied, ok⟩
      cases ok with
      | false =>
          rw [auto_optimize_context] at hsucc
          simp only [hdoc, hdk] at hsucc
          simp [OpResult.base] at hsucc
      | true =>
          by_cases hval : (validate_context_data
              (match doc.meta with
               | some r => fields1 ++ [("metadata",
                   JVal.dict (heapGet heap1 r))]
               | none => fields1)).1 = []
          case neg =>
            rw [auto_optimize_context] at hsucc
            simp only [hdoc, hdk] at hsucc
            cases hmeta : doc.meta with
            | some r =>
                have hval2 : ¬ (validate_context_data
                    (fields1 ++ [("metadata", JVal.dict (heapGet heap1 r))])).1 = [] := by
                  rw [hmeta] at hval
                  exact hval
                simp [backup_preserves_heap, hmeta, hval2, OpResult.base] at hsucc
            | none =>
                have hval2 : ¬ (validate_context_data fields1).1 = [] := by
                  rw [hmeta] at hval
                  exact hval
                simp [backup_preserves_heap, hmeta, hval2, OpResult.base] at hsucc
          case pos =>
            cases hmeta : doc.meta with
            | some r =>
                have hval2 : (validate_context_data
                    (fields1 ++ [("metadata", JVal.dict (heapGet heap1 r))])).1 = [] := by
                  rw [hmeta] at hval
                  exact hval
                have hpre := applyOptimizations_count doc.fields doc.meta st.heap optdata r
                rw [hdk] at hpre
                have hm2 : alookup (aset (aset (heapGet heap1 r) "last_updated" (.str now))
                    "last_optimization" (.str now)) "optimization_count" =
                    alookup (heapGet st.heap r) "optimization_count" := by
                  rw [alookup_aset_ne _ _ _ _ (by decide),
                      alookup_aset_ne _ _ _ _ (by decide)]
                  exact hpre
                have hrhs : getOptCount st name =
                    alookup (heapGet st.heap r) "optimization_count" := by
                  simp [getOptCount, hdoc, hmeta]
                cases hcv : alookup (heapGet st.heap r) "optimization_count" with
                | none =>
                    cases wOk with
                    | false =>
                        rw [auto_optimize_context] at hsucc
                        simp only [hdoc, hdk] at hsucc
                        simp [backup_preserves_heap, hval2, hmeta, hm2, hcv,
                              OpResult.base] at hsucc
                    | true =>
                        rw [auto_optimize_context]
                        simp only [hdoc, hdk]
                        simp [backup_preserves_heap, backup_preserves_contexts,
                              hval2, hmeta, hm2, hcv, hrhs, getOptCount, hdoc,
                              alookup_aset_self, heapGet_aset_self]
                | some cv =>
                    cases cv with
                    | num n =>
                        cases wOk with
                        | false =>
                            rw [auto_optimize_context] at hsucc
                            simp only [hdoc, hdk] at hsucc
                            simp [backup_preserves_heap, hval2, hmeta, hm2, hcv,
                                  OpResult.base] at hsucc
                        | true =>
                            rw [auto_optimize_context]
                            simp only [hdoc, hdk]
                            simp [backup_preserves_heap, backup_preserves_contexts,
                                  hval2, hmeta, hm2, hcv, hrhs, getOptCount, hdoc,
                                  alookup_aset_self, heapGet_aset_self]
                    | null =>
                        rw [auto_optimize_context] at hsucc
                        simp only [hdoc, hdk] at hsucc
                        simp [backup_preserves_heap, hval2, hmeta, hm2, hcv,
                              OpResult.base] at hsucc
                    | bool b =>
                        rw [auto_optimize_context] at hsucc
                        simp only [hdoc, hdk] at hsucc
                        simp [backup_preserves_heap, hval2, hmeta, hm2, hcv,
                              OpResult.base] at hsucc
                    | str s =>
                        rw [auto_optimize_context] at hsucc
                        simp only [hdoc, hdk] at hsucc
                        simp [backup_preserves_heap, hval2, hmeta, hm2, hcv,
                              OpResult.base] at hsucc
                    | list l =>
                        rw [auto_optimize_context] at hsucc
                        simp only [hdoc, hdk] at hsucc
                        simp [backup_preserves_heap, hval2, hmeta, hm2, hcv,
                              OpResult.base] at hsucc
                    | dict dd =>
                        rw [auto_optimize_context] at hsucc
                        simp only [hdoc, hdk] at hsucc
                        simp [backup_preserves_heap, hval2, hmeta, hm2, hcv,
                              OpResult.base] at hsucc
            | none =>
                have hval2 : (validate_context_data fields1).1 = [] := by
                  rw [hmeta] at hval
                  exact hval
                have hrhs : getOptCount st name = none := by
                  simp [getOptCount, hdoc, hmeta]
                cases hraw : hasKey fields1 "metadata" with
                | true =>
                    rw [auto_optimize_context] at hsucc
                    simp only [hdoc, hdk] at hsucc
                    simp [backup_preserves_heap, hval2, hmeta, hraw,
                          OpResult.base] at hsucc
                | false =>
                    cases wOk with
                    | false =>
                        rw [auto_optimize_context] at hsucc
                        simp only [hdoc, hdk] at hsucc
                        simp [backup_preserves_heap, hval2, hmeta, hraw,
                              OpResult.base] at hsucc
                    | true =>
                        rw [auto_optimize_context]
                        simp only [hdoc, hdk]
                        simp [backup_preserves_heap, backup_preserves_contexts,
                              hval2, hmeta, hraw, hrhs, getOptCount, allocMeta, hdoc,
                              alookup_aset_self, heapGet_aset_self, alookup]

/-- C5 amended: `metadata.optimization_count` is never changed by
`add_context_pattern`; every successful `auto_optimize_context` increments
it by exactly one (missing counts as zero); and `update_context_rules`
leaves it unchanged provided the caller's `updates.metadata` does not
itself carry an `optimization_count` key — when it does, the deep merge
overwrites the counter with the caller's value, which may decrease it (the
C5 counterexample). -/
theorem optimization_count_amended :
    (∀ (st : Store) (name psec pname : String) (cfg : JVal) (now ts : String)
        (bOk wOk : Bool),
        getOptCount (add_context_pattern st name psec pname cfg now ts bOk wOk).2 name =
          getOptCount st name) ∧
    (∀ (st : Store) (name : String) (optdata : DocV) (now ts : String)
        (bOk wOk : Bool),
        (auto_optimize_context st name optdata now ts bOk wOk).1.success = true →
        getOptCount (auto_optimize_context st name optdata now ts bOk wOk).2 name =
          some (.num ((match getOptCount st name with
            | some (.num n) => n
            | _ => 0) + 1))) ∧
    (∀ (st : Store) (name : String) (updates : DocV) (now ts : String)
        (bOk wOk : Bool),
        (∀ p ∈ updates, ∀ d, p.2 = JVal.dict d → p.1 = "metadata" →
            hasKey d "optimization_count" = false) →
        getOptCount (update_context_rules st name updates now ts bOk wOk).2 name =
          getOptCount st name) :=
  ⟨addPattern_count, optimize_success_count, updateRules_count⟩

/-- C5 witness: the three parts at the C5 store (counter 5): add_pattern
preserves it, a successful optimize takes it to 5+1, and an update whose
metadata carries no counter key preserves it. -/
theorem optimization_count_amended_witness :
    getOptCount (add_context_pattern c5store "git" "auto_store_triggers" "p"
        (.dict []) "T1" "TS" true true).2 "git" = getOptCount c5store "git" ∧
    getOptCount (auto_optimize_context c5store "git" [] "T1" "TS" true true).2 "git" =
      some (.num ((match getOptCount c5store "git" with
        | some (.num n) => n
        | _ => 0) + 1)) ∧
    getOptCount (update_context_rules c5store "git"
        [("metadata", .dict [("version", .str "2.0.0")])] "T1" "TS" true true).2 "git" =
      getOptCount c5store "git" :=
  ⟨optimization_count_amended.1 c5store "git" "auto_store_triggers" "p"
      (.dict []) "T1" "TS" true true,
   optimization_count_amended.2.1 c5store "git" [] "T1" "TS" true true rfl,
   optimization_count_amended.2.2 c5store "git"
      [("metadata", .dict [("version", .str "2.0.0")])] "T1" "TS" true true
      (by
        intro p hp d hd hk
        have hp2 := List.mem_singleton.mp hp
        subst hp2
        injection hd with h2
        subst h2
        decide)⟩
